import Mathlib

/-!
Node-aware game server selection (`pkg/fleetallocation/find.go`).

A shallow embedding of `findReadyGameServerForAllocation`, `packedComparator`
and `distributedComparator`, followed by the properties proved about them.

Modelling conventions.

* A Go pointer that may be `nil` is an `Option`; dereferencing `nil` is the
  fault `Fault.nilDereference`, carried in `Except`.
* A Go `map[string]T` is an association list with pairwise distinct keys
  (`GoMap T`).  New keys are appended, existing keys are updated in place.
* `for k, v := range m` visits the entries of `m` in an order the language
  leaves unspecified.  The order is the parameter `range`: a function that
  lists the entries of the map.  `RangesOver range m` says that the listing is
  a permutation of the entries of `m`, which is all Go promises.
* The `int64` counters are `Int`.  A counter is incremented at most once per
  element of the input slice and a Go slice has fewer than `2 ^ 63` elements,
  so no increment can wrap.
-/

namespace FleetAllocation

/-! ## Data model -/

/-- Modelled from the spec: the lifecycle state `v1alpha1.GameServerState`, declared in
`pkg/apis/stable/v1alpha1` (not part of the sources at hand).  The spec lists it as
"enumerated: Ready, Allocated, plus other opaque states not relevant to selection". -/
inductive GameServerState where
  | Ready
  | Allocated
  | Other (tag : String)
  deriving DecidableEq, Repr

/-- Modelled from the spec: the part of `v1alpha1.GameServerStatus` the selection reads, the
lifecycle state and the owning node identifier. -/
structure GameServerStatus where
  State : GameServerState
  NodeName : String
  deriving DecidableEq, Repr

/-- Modelled from the spec: the part of `v1alpha1.GameServer` the selection reads, the
identifier, the "marked for removal" timestamp (`nil`, or an instant counted from the zero
time) and the status. -/
structure GameServer where
  Name : String
  DeletionTimestamp : Option Nat
  Status : GameServerStatus
  deriving DecidableEq, Repr

/-- Modelled from the spec: `(*metav1.Time).IsZero`, true for a `nil` timestamp and for the
zero instant; this is the "removal flag unset" test. -/
def IsZero (t : Option Nat) : Bool :=
  match t with
  | none => true
  | some v => v == 0

/-- The Go struct `nodeCount`: counts of Ready and Allocated game servers of one node. -/
structure nodeCount where
  ready : Int
  allocated : Int
  deriving DecidableEq, Repr

/-- The only run-time fault the code can raise: a `nil` pointer dereference. -/
inductive Fault where
  | nilDereference
  deriving DecidableEq, Repr

deriving instance DecidableEq for Except

/-! ## Go maps -/

/-- A Go `map[string]β` as an association list. -/
abbrev GoMap (β : Type) := List (String × β)

/-- The map read `m[k]`; `none` is the zero value of a pointer type (`nil`). -/
def mapLookup {β : Type} : GoMap β → String → Option β
  | [], _ => none
  | (k', v) :: rest, k => if k' = k then some v else mapLookup rest k

/-- The map write `m[k] = v`. -/
def mapStore {β : Type} : GoMap β → String → β → GoMap β
  | [], k, v => [(k, v)]
  | (k', v') :: rest, k, v =>
    if k' = k then (k', v) :: rest else (k', v') :: mapStore rest k v

/-- An in-place update through the pointer stored at `m[k]`, as in `m[k].field++`.
Nothing is written when the key is absent. -/
def mapModify {β : Type} : GoMap β → String → (β → β) → GoMap β
  | [], _, _ => []
  | (k', v') :: rest, k, f =>
    if k' = k then (k', f v') :: rest else (k', v') :: mapModify rest k f

/-- The keys of a map. -/
def mapKeys {β : Type} (m : GoMap β) : List String := m.map Prod.fst

/-- The listing `range m` enumerates every entry of `m` exactly once. -/
def RangesOver {β : Type} (range : GoMap β → List (String × β)) (m : GoMap β) : Prop :=
  (range m).Perm m

/-! ## The comparators (find.go, lines 86-102) -/

/-- The type `func(bestCount, currentCount *nodeCount) bool`. -/
abbrev Comparator := Option nodeCount → Option nodeCount → Except Fault Bool

/-- The Go function `packedComparator`. -/
def packedComparator : Comparator
  | some bestCount, some currentCount =>
    if currentCount.allocated = bestCount.allocated ∧ currentCount.ready > bestCount.ready then
      .ok true
    else if currentCount.allocated > bestCount.allocated then
      .ok true
    else
      .ok false
  | _, _ => .error Fault.nilDereference

/-- The Go function `distributedComparator`. -/
def distributedComparator : Comparator := fun bestCount currentCount =>
  match packedComparator bestCount currentCount with
  | .ok b => .ok (!b)
  | .error e => .error e

/-! ## The selection (find.go, lines 31-84) -/

/-- The two maps built by the first loop. -/
structure Tally where
  counts : GoMap nodeCount
  allocatableGameServers : GoMap GameServer
  deriving DecidableEq, Repr

/-- The outcome of the first loop: it returned a game server from inside the loop, or it ran
to the end with the two maps. -/
inductive Scan where
  | returned (gs : GameServer)
  | finished (t : Tally)
  deriving DecidableEq, Repr

/-- The counting branch of the first loop body (lines 50-60). -/
def tallyStep (t : Tally) (gs : GameServer) : Tally :=
  let counts1 :=
    match mapLookup t.counts gs.Status.NodeName with
    | some _ => t.counts
    | none => mapStore t.counts gs.Status.NodeName ⟨0, 0⟩
  if gs.Status.State = GameServerState.Allocated then
    { counts := mapModify counts1 gs.Status.NodeName
        (fun c => { c with allocated := c.allocated + 1 }),
      allocatableGameServers := t.allocatableGameServers }
  else if gs.Status.State = GameServerState.Ready then
    { counts := mapModify counts1 gs.Status.NodeName
        (fun c => { c with ready := c.ready + 1 }),
      allocatableGameServers := mapStore t.allocatableGameServers gs.Status.NodeName gs }
  else
    { counts := counts1, allocatableGameServers := t.allocatableGameServers }

/-- The first loop (lines 40-62), over the rest of the slice from the maps built so far. -/
def scanLoop (gameServerName : String) : List GameServer → Tally → Scan
  | [], t => Scan.finished t
  | gs :: rest, t =>
    if IsZero gs.DeletionTimestamp && gameServerName != "" &&
        (gs.Status.State == GameServerState.Allocated ||
          gs.Status.State == GameServerState.Ready) then
      if gs.Name = gameServerName then Scan.returned gs
      else scanLoop gameServerName rest t
    else if IsZero gs.DeletionTimestamp &&
        (gs.Status.State == GameServerState.Allocated ||
          gs.Status.State == GameServerState.Ready) then
      scanLoop gameServerName rest (tallyStep t gs)
    else
      scanLoop gameServerName rest t

/-- The second loop (lines 74-81) over the entries still to visit, from the current
`bestCount` and `bestGS`; it yields the final pair. -/
def chooseLoop (comparator : Comparator) (allocatableGameServers : GoMap GameServer) :
    List (String × nodeCount) → Option nodeCount → Option GameServer →
      Except Fault (Option nodeCount × Option GameServer)
  | [], bestCount, bestGS => .ok (bestCount, bestGS)
  | (nodeName, count) :: rest, bestCount, bestGS =>
    if count.ready > 0 then
      match bestGS with
      | none =>
        chooseLoop comparator allocatableGameServers rest (some count)
          (mapLookup allocatableGameServers nodeName)
      | some g =>
        match comparator bestCount (some count) with
        | .error e => .error e
        | .ok true =>
          chooseLoop comparator allocatableGameServers rest (some count)
            (mapLookup allocatableGameServers nodeName)
        | .ok false =>
          chooseLoop comparator allocatableGameServers rest bestCount (some g)
    else
      chooseLoop comparator allocatableGameServers rest bestCount bestGS

/-- The Go function `findReadyGameServerForAllocation`.  The extra first argument is the
order in which `range counts` visits the node map. -/
def findReadyGameServerForAllocation (range : GoMap nodeCount → List (String × nodeCount))
    (gsList : List GameServer) (comparator : Comparator) (gameServerName : String) :
    Except Fault (Option GameServer) :=
  match scanLoop gameServerName gsList ⟨[], []⟩ with
  | Scan.returned gs => .ok (some gs)
  | Scan.finished t =>
    if gameServerName != "" then .ok none
    else
      match chooseLoop comparator t.allocatableGameServers (range t.counts) none none with
      | .error e => .error e
      | .ok (_, bestGS) => .ok bestGS

/-! ## Specification vocabulary -/

/-- An entity is eligible: removal flag unset and state Ready or Allocated. -/
def eligible (gs : GameServer) : Bool :=
  IsZero gs.DeletionTimestamp &&
    (gs.Status.State == GameServerState.Allocated || gs.Status.State == GameServerState.Ready)

/-- An eligible Ready entity on node `n`. -/
def readyAt (n : String) (gs : GameServer) : Bool :=
  IsZero gs.DeletionTimestamp && gs.Status.State == GameServerState.Ready &&
    gs.Status.NodeName == n

/-- An eligible Allocated entity on node `n`. -/
def allocatedAt (n : String) (gs : GameServer) : Bool :=
  IsZero gs.DeletionTimestamp && gs.Status.State == GameServerState.Allocated &&
    gs.Status.NodeName == n

/-- The number of eligible Ready entities on node `n`. -/
def readyOn (gsList : List GameServer) (n : String) : Nat := gsList.countP (readyAt n)

/-- The number of eligible Allocated entities on node `n`. -/
def allocatedOn (gsList : List GameServer) (n : String) : Nat := gsList.countP (allocatedAt n)

/-- The maps the first loop builds when no target name is given. -/
def tally (gsList : List GameServer) : Tally :=
  match scanLoop "" gsList ⟨[], []⟩ with
  | Scan.returned _ => ⟨[], []⟩
  | Scan.finished t => t

/-- Node `n` hosts at least one eligible entity of the snapshot. -/
def hostsEligible (gsList : List GameServer) (n : String) : Bool :=
  gsList.any (fun gs => eligible gs && decide (gs.Status.NodeName = n))

/-- Lexicographic order on `(allocated, ready)`. -/
def lexLe (a b : nodeCount) : Prop :=
  a.allocated < b.allocated ∨ (a.allocated = b.allocated ∧ a.ready ≤ b.ready)

instance (a b : nodeCount) : Decidable (lexLe a b) := by
  unfold lexLe; infer_instance

/-- The comparator returns on every pair of present counts and its verdict follows the
relation `le`: it answers true only when `le best current`, false only when
`le current best`. -/
def Orders (comparator : Comparator) (le : nodeCount → nodeCount → Prop) : Prop :=
  ∀ b c, (comparator (some b) (some c) = .ok true ∧ le b c) ∨
    (comparator (some b) (some c) = .ok false ∧ le c b)

/-- The state of the second loop after the entries `visited`: nothing is chosen and no
visited node has a Ready entity, or the chosen pair comes from a visited node with a Ready
entity whose count is above (in the sense of `le`) every visited node with a Ready entity. -/
def Best (allocatableGameServers : GoMap GameServer) (le : nodeCount → nodeCount → Prop)
    (visited : List (String × nodeCount)) (bestCount : Option nodeCount)
    (bestGS : Option GameServer) : Prop :=
  (bestGS = none ∧ ∀ e ∈ visited, ¬ 0 < e.2.ready) ∨
  (∃ n c g, (n, c) ∈ visited ∧ 0 < c.ready ∧ bestCount = some c ∧ bestGS = some g ∧
    mapLookup allocatableGameServers n = some g ∧
    ∀ e ∈ visited, 0 < e.2.ready → le e.2 c)

/-! ## Sample data -/

/-- A game server with the given name, node and state, not marked for removal. -/
def mkGS (name node : String) (state : GameServerState) : GameServer :=
  { Name := name, DeletionTimestamp := none, Status := { State := state, NodeName := node } }

/-- Scenario of the spec: NodeA hosts 2 Allocated and 1 Ready, NodeB hosts 1 Allocated and
5 Ready. -/
def scenario : List GameServer :=
  [ mkGS "a1" "NodeA" .Allocated, mkGS "a2" "NodeA" .Allocated, mkGS "a3" "NodeA" .Ready,
    mkGS "b1" "NodeB" .Allocated, mkGS "b2" "NodeB" .Ready, mkGS "b3" "NodeB" .Ready,
    mkGS "b4" "NodeB" .Ready, mkGS "b5" "NodeB" .Ready, mkGS "b6" "NodeB" .Ready ]

/-- A snapshot where NodeC hosts 3 Allocated entities and no Ready one, and NodeA hosts a
single Ready entity. -/
def gatedScenario : List GameServer :=
  [ mkGS "c1" "NodeC" .Allocated, mkGS "c2" "NodeC" .Allocated, mkGS "c3" "NodeC" .Allocated,
    mkGS "a1" "NodeA" .Ready ]

/-- A snapshot with two nodes of identical counts: NodeX and NodeY host one Ready entity
each and no Allocated one. -/
def tieScenario : List GameServer :=
  [ mkGS "x1" "NodeX" .Ready, mkGS "y1" "NodeY" .Ready ]

/-! ## Lemmas on maps -/

theorem mapLookup_mapStore {β : Type} (m : GoMap β) (k k' : String) (v : β) :
    mapLookup (mapStore m k v) k' = if k = k' then some v else mapLookup m k' := by
  induction m with
  | nil => simp [mapStore, mapLookup]
  | cons e rest ih =>
    obtain ⟨a, b⟩ := e
    by_cases h : a = k
    · subst h
      by_cases h2 : a = k' <;> simp [mapStore, mapLookup, h2]
    · by_cases h2 : a = k'
      · subst h2
        have h3 : ¬ k = a := fun e => h e.symm
        simp [mapStore, mapLookup, h, h3]
      · simp [mapStore, mapLookup, h, h2, ih]

theorem mapLookup_mapModify {β : Type} (m : GoMap β) (k k' : String) (f : β → β) :
    mapLookup (mapModify m k f) k' =
      if k = k' then (mapLookup m k).map f else mapLookup m k' := by
  induction m with
  | nil => simp [mapModify, mapLookup]
  | cons e rest ih =>
    obtain ⟨a, b⟩ := e
    by_cases h : a = k
    · subst h
      by_cases h2 : a = k' <;> simp [mapModify, mapLookup, h2]
    · by_cases h2 : a = k'
      · subst h2
        have h3 : ¬ k = a := fun e => h e.symm
        simp [mapModify, mapLookup, h, h3]
      · simp [mapModify, mapLookup, h, h2, ih]

theorem mapKeys_mapModify {β : Type} (m : GoMap β) (k : String) (f : β → β) :
    mapKeys (mapModify m k f) = mapKeys m := by
  induction m with
  | nil => simp [mapModify, mapKeys]
  | cons e rest ih =>
    obtain ⟨a, b⟩ := e
    by_cases h : a = k
    · simp [mapModify, mapKeys, h]
    · simp only [mapKeys] at ih
      simp [mapModify, mapKeys, h, ih]

theorem mapLookup_eq_none {β : Type} (m : GoMap β) (k : String) :
    mapLookup m k = none ↔ k ∉ mapKeys m := by
  induction m with
  | nil => simp [mapLookup, mapKeys]
  | cons e rest ih =>
    obtain ⟨a, b⟩ := e
    simp only [mapKeys] at ih
    by_cases h : a = k
    · simp [mapLookup, mapKeys, h]
    · have h3 : ¬ k = a := fun e => h e.symm
      simp [mapLookup, mapKeys, h, h3, ih]

theorem mapKeys_mapStore_nodup {β : Type} (m : GoMap β) (k : String) (v : β)
    (h : (mapKeys m).Nodup) : (mapKeys (mapStore m k v)).Nodup := by
  induction m with
  | nil => simp [mapStore, mapKeys]
  | cons e rest ih =>
    obtain ⟨a, b⟩ := e
    simp only [mapKeys, List.map_cons, List.nodup_cons] at h ih
    by_cases h2 : a = k
    · simp only [mapStore, h2, if_true, mapKeys, List.map_cons, List.nodup_cons]
      exact ⟨h2 ▸ h.1, h.2⟩
    · simp only [mapStore, h2, if_false, mapKeys, List.map_cons, List.nodup_cons]
      refine ⟨?_, ih h.2⟩
      intro hmem
      have hne : mapLookup (mapStore rest k v) a ≠ none := by
        rw [Ne, mapLookup_eq_none]
        exact fun hc => hc hmem
      rw [mapLookup_mapStore] at hne
      have h3 : ¬ k = a := fun e => h2 e.symm
      simp only [h3, if_false, Ne, mapLookup_eq_none, not_not] at hne
      exact h.1 hne

theorem mem_of_mapLookup {β : Type} (m : GoMap β) (k : String) (v : β)
    (h : mapLookup m k = some v) : (k, v) ∈ m := by
  induction m with
  | nil => simp [mapLookup] at h
  | cons e rest ih =>
    obtain ⟨a, b⟩ := e
    by_cases h2 : a = k
    · simp [mapLookup, h2] at h
      simp [h2, h]
    · simp [mapLookup, h2] at h
      exact List.mem_cons_of_mem _ (ih h)

theorem mapLookup_of_mem {β : Type} (m : GoMap β) (k : String) (v : β)
    (hnd : (mapKeys m).Nodup) (h : (k, v) ∈ m) : mapLookup m k = some v := by
  induction m with
  | nil => simp at h
  | cons e rest ih =>
    obtain ⟨a, b⟩ := e
    simp only [mapKeys, List.map_cons, List.nodup_cons] at hnd ih
    rcases List.mem_cons.1 h with heq | hmem
    · have h1 : k = a := (Prod.mk.inj heq).1
      have h2 : v = b := (Prod.mk.inj heq).2
      simp [mapLookup, h1, h2]
    · have hk : k ∈ List.map Prod.fst rest := List.mem_map.2 ⟨(k, v), hmem, rfl⟩
      have hne : ¬ a = k := fun e => hnd.1 (e ▸ hk)
      simp only [mapLookup, hne, if_false]
      exact ih hnd.2 hmem

/-! ## The first loop -/

theorem scanLoop_named (gameServerName : String) (hname : gameServerName ≠ "")
    (gsList : List GameServer) (t : Tally) :
    scanLoop gameServerName gsList t =
      match gsList.find? (fun gs => eligible gs && decide (gs.Name = gameServerName)) with
      | some g => Scan.returned g
      | none => Scan.finished t := by
  induction gsList with
  | nil => simp [scanLoop]
  | cons gs rest ih =>
    have hn : (gameServerName != "") = true := by simpa using hname
    by_cases he : eligible gs = true
    · have he2 := he
      simp only [eligible, Bool.and_eq_true] at he2
      by_cases hm : gs.Name = gameServerName
      · simp [scanLoop, List.find?, he, hm, he2.1, he2.2, hn]
      · simp [scanLoop, List.find?, he, hm, he2.1, he2.2, hn, ih]
    · have he3 : eligible gs = false := by simpa using he
      have he2 := he3
      simp only [eligible] at he2
      by_cases hz : IsZero gs.DeletionTimestamp = true
      · simp only [hz, Bool.true_and] at he2
        simp [scanLoop, List.find?, he3, hz, he2, hn, ih]
      · have hz2 : IsZero gs.DeletionTimestamp = false := by simpa using hz
        simp [scanLoop, List.find?, he3, hz2, ih]

theorem scanLoop_unnamed (gsList : List GameServer) (t : Tally) :
    scanLoop "" gsList t = Scan.finished ((gsList.filter eligible).foldl tallyStep t) := by
  induction gsList generalizing t with
  | nil => simp [scanLoop]
  | cons gs rest ih =>
    by_cases he : eligible gs = true
    · have he2 := he
      simp only [eligible] at he2
      simp [scanLoop, List.filter, he, he2, ih]
    · have he3 : eligible gs = false := by simpa using he
      have he2 := he3
      simp only [eligible] at he2
      simp [scanLoop, List.filter, he3, he2, ih]

theorem tally_eq (gsList : List GameServer) :
    tally gsList = (gsList.filter eligible).foldl tallyStep ⟨[], []⟩ := by
  simp [tally, scanLoop_unnamed]

theorem tally_snoc (gsList : List GameServer) (gs : GameServer) :
    tally (gsList ++ [gs]) =
      if eligible gs then tallyStep (tally gsList) gs else tally gsList := by
  by_cases he : eligible gs = true
  · simp [tally_eq, List.filter_append, List.filter, he, List.foldl_append]
  · have he3 : eligible gs = false := by simpa using he
    simp [tally_eq, List.filter_append, List.filter, he3]

theorem find_named (range : GoMap nodeCount → List (String × nodeCount))
    (gsList : List GameServer) (comparator : Comparator) (gameServerName : String)
    (hname : gameServerName ≠ "") :
    findReadyGameServerForAllocation range gsList comparator gameServerName =
      .ok (gsList.find? (fun gs => eligible gs && decide (gs.Name = gameServerName))) := by
  have hn : (gameServerName != "") = true := by simpa using hname
  unfold findReadyGameServerForAllocation
  rw [scanLoop_named gameServerName hname]
  cases hf : gsList.find? (fun gs => eligible gs && decide (gs.Name = gameServerName)) with
  | none => simp [hn]
  | some g => simp

theorem find_unnamed (range : GoMap nodeCount → List (String × nodeCount))
    (gsList : List GameServer) (comparator : Comparator) :
    findReadyGameServerForAllocation range gsList comparator "" =
      match chooseLoop comparator (tally gsList).allocatableGameServers
          (range (tally gsList).counts) none none with
      | .error e => .error e
      | .ok (_, bestGS) => .ok bestGS := by
  unfold findReadyGameServerForAllocation
  rw [tally, scanLoop_unnamed]
  simp

/-! ## What the first loop builds -/

theorem eligible_iff (gs : GameServer) :
    eligible gs = true ↔ IsZero gs.DeletionTimestamp = true ∧
      (gs.Status.State = GameServerState.Allocated ∨ gs.Status.State = GameServerState.Ready) := by
  simp [eligible]

theorem readyAt_iff (n : String) (gs : GameServer) :
    readyAt n gs = true ↔ IsZero gs.DeletionTimestamp = true ∧
      gs.Status.State = GameServerState.Ready ∧ gs.Status.NodeName = n := by
  simp [readyAt, and_assoc]

theorem allocatedAt_iff (n : String) (gs : GameServer) :
    allocatedAt n gs = true ↔ IsZero gs.DeletionTimestamp = true ∧
      gs.Status.State = GameServerState.Allocated ∧ gs.Status.NodeName = n := by
  simp [allocatedAt, and_assoc]

theorem tallyStep_keys_nodup (t : Tally) (gs : GameServer) (h : (mapKeys t.counts).Nodup) :
    (mapKeys (tallyStep t gs).counts).Nodup := by
  have h1 : (mapKeys (match mapLookup t.counts gs.Status.NodeName with
      | some _ => t.counts
      | none => mapStore t.counts gs.Status.NodeName ⟨0, 0⟩)).Nodup := by
    cases mapLookup t.counts gs.Status.NodeName with
    | none => exact mapKeys_mapStore_nodup _ _ _ h
    | some c => exact h
  unfold tallyStep
  simp only
  split_ifs
  · simpa [mapKeys_mapModify] using h1
  · simpa [mapKeys_mapModify] using h1
  · exact h1

theorem tallyStep_counts (t : Tally) (gs : GameServer) (n : String)
    (he : eligible gs = true) :
    mapLookup (tallyStep t gs).counts n =
      if gs.Status.NodeName = n then
        some (if gs.Status.State = GameServerState.Allocated then
          { ready := ((mapLookup t.counts n).getD ⟨0, 0⟩).ready,
            allocated := ((mapLookup t.counts n).getD ⟨0, 0⟩).allocated + 1 }
        else
          { ready := ((mapLookup t.counts n).getD ⟨0, 0⟩).ready + 1,
            allocated := ((mapLookup t.counts n).getD ⟨0, 0⟩).allocated })
      else mapLookup t.counts n := by
  have hst := ((eligible_iff gs).1 he).2
  have hbase : ∀ k, mapLookup (match mapLookup t.counts gs.Status.NodeName with
      | some _ => t.counts
      | none => mapStore t.counts gs.Status.NodeName ⟨0, 0⟩) k =
      if gs.Status.NodeName = k then some ((mapLookup t.counts k).getD ⟨0, 0⟩)
      else mapLookup t.counts k := by
    intro k
    cases hl : mapLookup t.counts gs.Status.NodeName with
    | none =>
      simp only [mapLookup_mapStore]
      by_cases hk : gs.Status.NodeName = k
      · subst hk; simp [hl]
      · simp [hk]
    | some c =>
      by_cases hk : gs.Status.NodeName = k
      · subst hk; simp [hl]
      · simp [hk]
  unfold tallyStep
  simp only
  by_cases ha : gs.Status.State = GameServerState.Allocated
  · simp only [ha, if_true, mapLookup_mapModify, hbase]
    by_cases hk : gs.Status.NodeName = n
    · subst hk; simp
    · simp [hk]
  · have hr : gs.Status.State = GameServerState.Ready := hst.resolve_left ha
    simp only [if_neg ha, if_pos hr, mapLookup_mapModify, hbase]
    by_cases hk : gs.Status.NodeName = n
    · subst hk; simp [ha]
    · simp [hk]

theorem tallyStep_allocatable (t : Tally) (gs : GameServer) (n : String)
    (he : eligible gs = true) :
    mapLookup (tallyStep t gs).allocatableGameServers n =
      if gs.Status.State = GameServerState.Ready ∧ gs.Status.NodeName = n then some gs
      else mapLookup t.allocatableGameServers n := by
  have hst := ((eligible_iff gs).1 he).2
  unfold tallyStep
  simp only
  by_cases ha : gs.Status.State = GameServerState.Allocated
  · simp [ha]
  · have hr : gs.Status.State = GameServerState.Ready := hst.resolve_left ha
    simp only [if_neg ha, if_pos hr, mapLookup_mapStore]
    by_cases hk : gs.Status.NodeName = n <;> simp [hk, hr]

theorem tally_nil : tally [] = ⟨[], []⟩ := by
  simp [tally, scanLoop]

theorem tally_keys_nodup (gsList : List GameServer) :
    (mapKeys (tally gsList).counts).Nodup := by
  induction gsList using List.reverseRecOn with
  | nil => simp [tally_nil, mapKeys]
  | append_singleton l gs ih =>
    rw [tally_snoc]
    split_ifs
    · exact tallyStep_keys_nodup _ _ ih
    · exact ih

theorem tally_allocatable (gsList : List GameServer) (n : String) :
    mapLookup (tally gsList).allocatableGameServers n =
      (gsList.filter (readyAt n)).getLast? := by
  induction gsList using List.reverseRecOn with
  | nil => simp [tally_nil, mapLookup]
  | append_singleton l gs ih =>
    rw [tally_snoc, List.filter_append, List.getLast?_append]
    by_cases he : eligible gs = true
    · rw [if_pos he, tallyStep_allocatable _ _ _ he, ih]
      have hz := ((eligible_iff gs).1 he).1
      by_cases hc : gs.Status.State = GameServerState.Ready ∧ gs.Status.NodeName = n
      · have hra : readyAt n gs = true := (readyAt_iff n gs).2 ⟨hz, hc.1, hc.2⟩
        simp [hc, List.filter, hra]
      · have hra : readyAt n gs = false := by
          rw [Bool.eq_false_iff, Ne, readyAt_iff]
          exact fun h => hc ⟨h.2.1, h.2.2⟩
        simp [hc, List.filter, hra]
    · have hra : readyAt n gs = false := by
        rw [Bool.eq_false_iff, Ne, readyAt_iff]
        intro h
        exact he ((eligible_iff gs).2 ⟨h.1, Or.inr h.2.1⟩)
      simp [he, List.filter, hra, ih]

theorem readyOn_snoc (l : List GameServer) (gs : GameServer) (n : String) :
    readyOn (l ++ [gs]) n = readyOn l n + if readyAt n gs = true then 1 else 0 := by
  simp [readyOn, List.countP_append, List.countP_cons]

theorem allocatedOn_snoc (l : List GameServer) (gs : GameServer) (n : String) :
    allocatedOn (l ++ [gs]) n = allocatedOn l n + if allocatedAt n gs = true then 1 else 0 := by
  simp [allocatedOn, List.countP_append, List.countP_cons]

theorem hostsEligible_snoc (l : List GameServer) (gs : GameServer) (n : String) :
    hostsEligible (l ++ [gs]) n =
      (hostsEligible l n || (eligible gs && decide (gs.Status.NodeName = n))) := by
  simp [hostsEligible, List.any_append]

theorem hostsEligible_iff (l : List GameServer) (n : String) :
    hostsEligible l n = true ↔ ∃ gs ∈ l, eligible gs = true ∧ gs.Status.NodeName = n := by
  simp [hostsEligible, List.any_eq_true]

theorem readyOn_eq_zero_of_not_hosts (l : List GameServer) (n : String)
    (h : hostsEligible l n = false) : readyOn l n = 0 := by
  rw [readyOn, List.countP_eq_zero]
  intro gs hmem hr
  have hr2 := (readyAt_iff n gs).1 hr
  have : hostsEligible l n = true :=
    (hostsEligible_iff l n).2 ⟨gs, hmem, (eligible_iff gs).2 ⟨hr2.1, Or.inr hr2.2.1⟩, hr2.2.2⟩
  rw [h] at this
  exact Bool.noConfusion this

theorem allocatedOn_eq_zero_of_not_hosts (l : List GameServer) (n : String)
    (h : hostsEligible l n = false) : allocatedOn l n = 0 := by
  rw [allocatedOn, List.countP_eq_zero]
  intro gs hmem hr
  have hr2 := (allocatedAt_iff n gs).1 hr
  have : hostsEligible l n = true :=
    (hostsEligible_iff l n).2 ⟨gs, hmem, (eligible_iff gs).2 ⟨hr2.1, Or.inl hr2.2.1⟩, hr2.2.2⟩
  rw [h] at this
  exact Bool.noConfusion this

theorem tally_counts (gsList : List GameServer) (n : String) :
    mapLookup (tally gsList).counts n =
      if hostsEligible gsList n = true then
        some { ready := (readyOn gsList n : Int), allocated := (allocatedOn gsList n : Int) }
      else none := by
  induction gsList using List.reverseRecOn with
  | nil => simp [tally_nil, mapLookup, hostsEligible]
  | append_singleton l gs ih =>
    have hgetD : (mapLookup (tally l).counts n).getD ⟨0, 0⟩ =
        { ready := (readyOn l n : Int), allocated := (allocatedOn l n : Int) } := by
      rw [ih]
      by_cases hh : hostsEligible l n = true
      · simp [hh]
      · have hh2 : hostsEligible l n = false := by simpa using hh
        simp [hh2, readyOn_eq_zero_of_not_hosts l n hh2, allocatedOn_eq_zero_of_not_hosts l n hh2]
    rw [tally_snoc, readyOn_snoc, allocatedOn_snoc, hostsEligible_snoc]
    by_cases he : eligible gs = true
    · rw [if_pos he, tallyStep_counts _ _ _ he, hgetD]
      obtain ⟨hz, hst⟩ := (eligible_iff gs).1 he
      by_cases hk : gs.Status.NodeName = n
      · by_cases ha : gs.Status.State = GameServerState.Allocated
        · have h1 : allocatedAt n gs = true := (allocatedAt_iff n gs).2 ⟨hz, ha, hk⟩
          have h2 : readyAt n gs = false := by
            rw [Bool.eq_false_iff, Ne, readyAt_iff]
            intro h
            rw [ha] at h
            exact GameServerState.noConfusion h.2.1
          simp [he, hk, ha, h1, h2]
        · have hr : gs.Status.State = GameServerState.Ready := hst.resolve_left ha
          have h1 : allocatedAt n gs = false := by
            rw [Bool.eq_false_iff, Ne, allocatedAt_iff]
            exact fun h => ha h.2.1
          have h2 : readyAt n gs = true := (readyAt_iff n gs).2 ⟨hz, hr, hk⟩
          simp [he, hk, ha, h1, h2]
      · have h1 : allocatedAt n gs = false := by
          rw [Bool.eq_false_iff, Ne, allocatedAt_iff]
          exact fun h => hk h.2.2
        have h2 : readyAt n gs = false := by
          rw [Bool.eq_false_iff, Ne, readyAt_iff]
          exact fun h => hk h.2.2
        simp [hk, h1, h2, ih]
    · have he3 : eligible gs = false := by simpa using he
      have h1 : allocatedAt n gs = false := by
        rw [Bool.eq_false_iff, Ne, allocatedAt_iff]
        exact fun h => he ((eligible_iff gs).2 ⟨h.1, Or.inl h.2.1⟩)
      have h2 : readyAt n gs = false := by
        rw [Bool.eq_false_iff, Ne, readyAt_iff]
        exact fun h => he ((eligible_iff gs).2 ⟨h.1, Or.inr h.2.1⟩)
      simp [he3, h1, h2, ih]

/-! ## The second loop -/

theorem chooseLoop_skip (comparator : Comparator) (alloc : GoMap GameServer)
    (n : String) (c : nodeCount) (rest : List (String × nodeCount))
    (bc : Option nodeCount) (bgs : Option GameServer) (h : ¬ 0 < c.ready) :
    chooseLoop comparator alloc ((n, c) :: rest) bc bgs =
      chooseLoop comparator alloc rest bc bgs := by
  have h2 : ¬ c.ready > 0 := h
  simp [chooseLoop, h2]

theorem chooseLoop_first (comparator : Comparator) (alloc : GoMap GameServer)
    (n : String) (c : nodeCount) (rest : List (String × nodeCount))
    (bc : Option nodeCount) (h : 0 < c.ready) :
    chooseLoop comparator alloc ((n, c) :: rest) bc none =
      chooseLoop comparator alloc rest (some c) (mapLookup alloc n) := by
  have h2 : c.ready > 0 := h
  simp [chooseLoop, h2]

theorem chooseLoop_compare (comparator : Comparator) (alloc : GoMap GameServer)
    (n : String) (c : nodeCount) (rest : List (String × nodeCount))
    (bc : Option nodeCount) (g : GameServer) (h : 0 < c.ready) :
    chooseLoop comparator alloc ((n, c) :: rest) bc (some g) =
      match comparator bc (some c) with
      | .error e => .error e
      | .ok true => chooseLoop comparator alloc rest (some c) (mapLookup alloc n)
      | .ok false => chooseLoop comparator alloc rest bc (some g) := by
  have h2 : c.ready > 0 := h
  simp [chooseLoop, h2]

theorem chooseLoop_best (comparator : Comparator) (alloc : GoMap GameServer)
    (le : nodeCount → nodeCount → Prop) (hord : Orders comparator le)
    (hrefl : ∀ a, le a a) (htrans : ∀ a b c, le a b → le b c → le a c)
    (entries : List (String × nodeCount)) :
    ∀ (visited : List (String × nodeCount)) (bc : Option nodeCount) (bgs : Option GameServer),
      (∀ e ∈ entries, 0 < e.2.ready → ∃ g, mapLookup alloc e.1 = some g) →
      Best alloc le visited bc bgs →
      ∃ bc' bgs', chooseLoop comparator alloc entries bc bgs = .ok (bc', bgs') ∧
        Best alloc le (visited ++ entries) bc' bgs' := by
  induction entries with
  | nil =>
    intro visited bc bgs _ hb
    exact ⟨bc, bgs, by simp [chooseLoop], by simpa using hb⟩
  | cons e rest ih =>
    obtain ⟨n, c⟩ := e
    intro visited bc bgs hH hb
    have hH2 : ∀ e ∈ rest, 0 < e.2.ready → ∃ g, mapLookup alloc e.1 = some g :=
      fun e he => hH e (List.mem_cons_of_mem _ he)
    have happ : visited ++ (n, c) :: rest = (visited ++ [(n, c)]) ++ rest := by simp
    rw [happ]
    by_cases hpos : 0 < c.ready
    · obtain ⟨g, hg⟩ := hH (n, c) (List.mem_cons_self _ _) hpos
      have hmemv : (n, c) ∈ visited ++ [(n, c)] := by simp
      rcases hb with ⟨hnone, hvis⟩ | ⟨n0, c0, g0, hmem0, hpos0, hbc, hbgs, hl0, hmax⟩
      · rw [hnone, chooseLoop_first _ _ _ _ _ _ hpos, hg]
        apply ih (visited ++ [(n, c)]) (some c) (some g) hH2
        refine Or.inr ⟨n, c, g, hmemv, hpos, rfl, rfl, hg, ?_⟩
        intro e he hep
        rcases List.mem_append.1 he with hv | hs
        · exact absurd hep (hvis e hv)
        · have : e = (n, c) := by simpa using hs
          rw [this]
          exact hrefl c
      · rw [hbgs, hbc, chooseLoop_compare _ _ _ _ _ _ _ hpos]
        rcases hord c0 c with ⟨ht, hle⟩ | ⟨hf, hle⟩
        · rw [ht, hg]
          apply ih (visited ++ [(n, c)]) (some c) (some g) hH2
          refine Or.inr ⟨n, c, g, hmemv, hpos, rfl, rfl, hg, ?_⟩
          intro e he hep
          rcases List.mem_append.1 he with hv | hs
          · exact htrans _ _ _ (hmax e hv hep) hle
          · have : e = (n, c) := by simpa using hs
            rw [this]
            exact hrefl c
        · rw [hf]
          apply ih (visited ++ [(n, c)]) (some c0) (some g0) hH2
          refine Or.inr ⟨n0, c0, g0, List.mem_append_left _ hmem0, hpos0, rfl, rfl, hl0, ?_⟩
          intro e he hep
          rcases List.mem_append.1 he with hv | hs
          · exact hmax e hv hep
          · have : e = (n, c) := by simpa using hs
            rw [this]
            exact hle
    · rw [chooseLoop_skip _ _ _ _ _ _ _ hpos]
      apply ih (visited ++ [(n, c)]) bc bgs hH2
      rcases hb with ⟨hnone, hvis⟩ | ⟨n0, c0, g0, hmem0, hpos0, hbc, hbgs, hl0, hmax⟩
      · refine Or.inl ⟨hnone, ?_⟩
        intro e he
        rcases List.mem_append.1 he with hv | hs
        · exact hvis e hv
        · have : e = (n, c) := by simpa using hs
          rw [this]
          exact hpos
      · refine Or.inr ⟨n0, c0, g0, List.mem_append_left _ hmem0, hpos0, hbc, hbgs, hl0, ?_⟩
        intro e he hep
        rcases List.mem_append.1 he with hv | hs
        · exact hmax e hv hep
        · have : e = (n, c) := by simpa using hs
          rw [this] at hep
          exact absurd hep hpos

theorem chooseLoop_sound (comparator : Comparator) (alloc : GoMap GameServer)
    (entries : List (String × nodeCount)) :
    ∀ (visited : List (String × nodeCount)) (bc : Option nodeCount) (bgs : Option GameServer)
      (bc' : Option nodeCount) (bgs' : Option GameServer),
      (∀ e ∈ entries, 0 < e.2.ready → ∃ g, mapLookup alloc e.1 = some g) →
      Best alloc (fun _ _ => True) visited bc bgs →
      chooseLoop comparator alloc entries bc bgs = .ok (bc', bgs') →
      Best alloc (fun _ _ => True) (visited ++ entries) bc' bgs' := by
  induction entries with
  | nil =>
    intro visited bc bgs bc' bgs' _ hb hrun
    simp only [chooseLoop, Except.ok.injEq, Prod.mk.injEq] at hrun
    rw [← hrun.1, ← hrun.2]
    simpa using hb
  | cons e rest ih =>
    obtain ⟨n, c⟩ := e
    intro visited bc bgs bc' bgs' hH hb hrun
    have hH2 : ∀ e ∈ rest, 0 < e.2.ready → ∃ g, mapLookup alloc e.1 = some g :=
      fun e he => hH e (List.mem_cons_of_mem _ he)
    have happ : visited ++ (n, c) :: rest = (visited ++ [(n, c)]) ++ rest := by simp
    rw [happ]
    by_cases hpos : 0 < c.ready
    · obtain ⟨g, hg⟩ := hH (n, c) (List.mem_cons_self _ _) hpos
      have hmemv : (n, c) ∈ visited ++ [(n, c)] := by simp
      have hnew : Best alloc (fun _ _ => True) (visited ++ [(n, c)]) (some c) (some g) :=
        Or.inr ⟨n, c, g, hmemv, hpos, rfl, rfl, hg, fun _ _ _ => trivial⟩
      rcases hb with ⟨hnone, _⟩ | ⟨n0, c0, g0, hmem0, hpos0, hbc, hbgs, hl0, _⟩
      · rw [hnone, chooseLoop_first _ _ _ _ _ _ hpos, hg] at hrun
        exact ih _ _ _ _ _ hH2 hnew hrun
      · rw [hbgs, hbc, chooseLoop_compare _ _ _ _ _ _ _ hpos] at hrun
        cases hc : comparator (some c0) (some c) with
        | error e => rw [hc] at hrun; exact Except.noConfusion hrun
        | ok b =>
          cases b with
          | true =>
            rw [hc, hg] at hrun
            exact ih _ _ _ _ _ hH2 hnew hrun
          | false =>
            rw [hc] at hrun
            refine ih _ _ _ _ _ hH2 ?_ hrun
            exact Or.inr ⟨n0, c0, g0, List.mem_append_left _ hmem0, hpos0, rfl, rfl, hl0,
              fun _ _ _ => trivial⟩
    · rw [chooseLoop_skip _ _ _ _ _ _ _ hpos] at hrun
      refine ih _ _ _ _ _ hH2 ?_ hrun
      rcases hb with ⟨hnone, hvis⟩ | ⟨n0, c0, g0, hmem0, hpos0, hbc, hbgs, hl0, _⟩
      · refine Or.inl ⟨hnone, ?_⟩
        intro e he
        rcases List.mem_append.1 he with hv | hs
        · exact hvis e hv
        · have : e = (n, c) := by simpa using hs
          rw [this]
          exact hpos
      · exact Or.inr ⟨n0, c0, g0, List.mem_append_left _ hmem0, hpos0, hbc, hbgs, hl0,
          fun _ _ _ => trivial⟩

theorem chooseLoop_none (comparator : Comparator) (alloc : GoMap GameServer)
    (entries : List (String × nodeCount)) (bc : Option nodeCount) (bgs : Option GameServer)
    (h : ∀ e ∈ entries, ¬ 0 < e.2.ready) :
    chooseLoop comparator alloc entries bc bgs = .ok (bc, bgs) := by
  induction entries with
  | nil => simp [chooseLoop]
  | cons e rest ih =>
    obtain ⟨n, c⟩ := e
    rw [chooseLoop_skip _ _ _ _ _ _ _ (h (n, c) (List.mem_cons_self _ _))]
    exact ih (fun e he => h e (List.mem_cons_of_mem _ he))

theorem chooseLoop_provenance (comparator : Comparator) (alloc : GoMap GameServer)
    (entries : List (String × nodeCount)) :
    ∀ (bc : Option nodeCount) (bgs : Option GameServer)
      (bc' : Option nodeCount) (g : GameServer),
      chooseLoop comparator alloc entries bc bgs = .ok (bc', some g) →
      bgs = some g ∨ ∃ n, mapLookup alloc n = some g := by
  induction entries with
  | nil =>
    intro bc bgs bc' g hrun
    simp only [chooseLoop, Except.ok.injEq, Prod.mk.injEq] at hrun
    exact Or.inl hrun.2
  | cons e rest ih =>
    obtain ⟨n, c⟩ := e
    intro bc bgs bc' g hrun
    have hstep : ∀ (b : Option nodeCount),
        chooseLoop comparator alloc rest b (mapLookup alloc n) = .ok (bc', some g) →
        ∃ n, mapLookup alloc n = some g := by
      intro b hb
      rcases ih _ _ _ _ hb with h | h
      · exact ⟨n, h⟩
      · exact h
    by_cases hpos : 0 < c.ready
    · cases bgs with
      | none =>
        rw [chooseLoop_first _ _ _ _ _ _ hpos] at hrun
        exact Or.inr (hstep _ hrun)
      | some g0 =>
        rw [chooseLoop_compare _ _ _ _ _ _ _ hpos] at hrun
        cases hc : comparator bc (some c) with
        | error e => rw [hc] at hrun; exact Except.noConfusion hrun
        | ok b =>
          cases b with
          | true =>
            rw [hc] at hrun
            exact Or.inr (hstep _ hrun)
          | false =>
            rw [hc] at hrun
            exact ih _ _ _ _ hrun
    · rw [chooseLoop_skip _ _ _ _ _ _ _ hpos] at hrun
      exact ih _ _ _ _ hrun

/-! ## Facts on the two maps -/

theorem tally_allocatable_sound (gsList : List GameServer) (n : String) (g : GameServer)
    (h : mapLookup (tally gsList).allocatableGameServers n = some g) :
    g ∈ gsList ∧ readyAt n g = true := by
  rw [tally_allocatable] at h
  have hmem : g ∈ gsList.filter (readyAt n) := List.mem_of_getLast?_eq_some h
  exact List.mem_filter.1 hmem

theorem tally_allocatable_of_ready (gsList : List GameServer) (n : String)
    (h : 0 < readyOn gsList n) :
    ∃ g, mapLookup (tally gsList).allocatableGameServers n = some g := by
  rw [tally_allocatable]
  rw [readyOn, List.countP_eq_length_filter, List.length_pos] at h
  cases hl : (gsList.filter (readyAt n)).getLast? with
  | none => exact absurd (List.getLast?_eq_none_iff.1 hl) h
  | some g => exact ⟨g, rfl⟩

theorem tally_counts_of_mem (gsList : List GameServer) (n : String) (c : nodeCount)
    (h : (n, c) ∈ (tally gsList).counts) :
    hostsEligible gsList n = true ∧
      c = { ready := (readyOn gsList n : Int), allocated := (allocatedOn gsList n : Int) } := by
  have hl := mapLookup_of_mem _ _ _ (tally_keys_nodup gsList) h
  rw [tally_counts] at hl
  by_cases hh : hostsEligible gsList n = true
  · rw [if_pos hh] at hl
    exact ⟨hh, (Option.some.inj hl).symm⟩
  · rw [if_neg hh] at hl
    exact Option.noConfusion hl

theorem tally_mem_of_ready (gsList : List GameServer) (n : String)
    (h : 0 < readyOn gsList n) :
    (n, ({ ready := (readyOn gsList n : Int), allocated := (allocatedOn gsList n : Int) }
      : nodeCount)) ∈ (tally gsList).counts := by
  apply mem_of_mapLookup
  rw [tally_counts]
  have hh : hostsEligible gsList n = true := by
    by_contra hc
    have hc2 : hostsEligible gsList n = false := by simpa using hc
    rw [readyOn_eq_zero_of_not_hosts _ _ hc2] at h
    exact Nat.lt_irrefl 0 h
  rw [if_pos hh]

theorem tally_entries_allocatable (gsList : List GameServer) :
    ∀ e ∈ (tally gsList).counts, 0 < e.2.ready →
      ∃ g, mapLookup (tally gsList).allocatableGameServers e.1 = some g := by
  intro e he hpos
  obtain ⟨n, c⟩ := e
  obtain ⟨_, hc⟩ := tally_counts_of_mem gsList n c he
  apply tally_allocatable_of_ready
  have h2 : (0 : Int) < (readyOn gsList n : Int) := by
    rw [hc] at hpos
    exact hpos
  exact Int.ofNat_lt.1 h2

theorem scanLoop_tally (gsList : List GameServer) :
    scanLoop "" gsList ⟨[], []⟩ = Scan.finished (tally gsList) := by
  rw [scanLoop_unnamed, tally_eq]

theorem range_mem_iff (range : GoMap nodeCount → List (String × nodeCount))
    (gsList : List GameServer) (hr : RangesOver range (tally gsList).counts)
    (e : String × nodeCount) :
    e ∈ range (tally gsList).counts ↔ e ∈ (tally gsList).counts :=
  List.Perm.mem_iff hr

theorem range_entries_allocatable (range : GoMap nodeCount → List (String × nodeCount))
    (gsList : List GameServer) (hr : RangesOver range (tally gsList).counts) :
    ∀ e ∈ range (tally gsList).counts, 0 < e.2.ready →
      ∃ g, mapLookup (tally gsList).allocatableGameServers e.1 = some g :=
  fun e he hpos =>
    tally_entries_allocatable gsList e ((range_mem_iff range gsList hr e).1 he) hpos

theorem find_unnamed_run (range : GoMap nodeCount → List (String × nodeCount))
    (gsList : List GameServer) (comparator : Comparator) (r : Option GameServer)
    (h : findReadyGameServerForAllocation range gsList comparator "" = .ok r) :
    ∃ bc, chooseLoop comparator (tally gsList).allocatableGameServers
      (range (tally gsList).counts) none none = .ok (bc, r) := by
  rw [find_unnamed] at h
  cases hc : chooseLoop comparator (tally gsList).allocatableGameServers
      (range (tally gsList).counts) none none with
  | error e => rw [hc] at h; exact Except.noConfusion h
  | ok pr =>
    obtain ⟨bc, bgs⟩ := pr
    rw [hc] at h
    simp only [Except.ok.injEq] at h
    exact ⟨bc, by rw [h]⟩

theorem find_unnamed_of_run (range : GoMap nodeCount → List (String × nodeCount))
    (gsList : List GameServer) (comparator : Comparator) (bc : Option nodeCount)
    (r : Option GameServer)
    (h : chooseLoop comparator (tally gsList).allocatableGameServers
      (range (tally gsList).counts) none none = .ok (bc, r)) :
    findReadyGameServerForAllocation range gsList comparator "" = .ok r := by
  rw [find_unnamed, h]

theorem readyOn_pos_of_mem (gsList : List GameServer) (gs : GameServer) (hmem : gs ∈ gsList)
    (hz : IsZero gs.DeletionTimestamp = true)
    (hs : gs.Status.State = GameServerState.Ready) :
    0 < readyOn gsList gs.Status.NodeName := by
  rw [readyOn, List.countP_pos_iff]
  exact ⟨gs, hmem, (readyAt_iff _ gs).2 ⟨hz, hs, rfl⟩⟩

theorem lexLe_refl (a : nodeCount) : lexLe a a := Or.inr ⟨rfl, le_refl _⟩

theorem lexLe_trans (a b c : nodeCount) (h1 : lexLe a b) (h2 : lexLe b c) : lexLe a c := by
  unfold lexLe at *
  omega

theorem packedComparator_orders : Orders packedComparator lexLe := by
  intro b c
  simp only [packedComparator, lexLe]
  split_ifs with h1 h2
  · exact Or.inl ⟨rfl, by omega⟩
  · exact Or.inl ⟨rfl, by omega⟩
  · exact Or.inr ⟨rfl, by omega⟩

theorem distributedComparator_orders :
    Orders distributedComparator (fun a b => lexLe b a) := by
  intro b c
  simp only [distributedComparator, packedComparator, lexLe]
  split_ifs with h1 h2
  · exact Or.inr ⟨rfl, by omega⟩
  · exact Or.inr ⟨rfl, by omega⟩
  · exact Or.inl ⟨rfl, by omega⟩

theorem find_ordered (range : GoMap nodeCount → List (String × nodeCount))
    (gsList : List GameServer) (comparator : Comparator)
    (le : nodeCount → nodeCount → Prop) (hord : Orders comparator le)
    (hrefl : ∀ a, le a a) (htrans : ∀ a b c, le a b → le b c → le a c)
    (hr : RangesOver range (tally gsList).counts) :
    ∃ r, findReadyGameServerForAllocation range gsList comparator "" = .ok r ∧
      (r = none ↔ ∀ n, readyOn gsList n = 0) ∧
      ∀ g, r = some g →
        (gsList.filter (readyAt g.Status.NodeName)).getLast? = some g ∧
        ∀ m, 0 < readyOn gsList m →
          le { ready := (readyOn gsList m : Int), allocated := (allocatedOn gsList m : Int) }
            { ready := (readyOn gsList g.Status.NodeName : Int),
              allocated := (allocatedOn gsList g.Status.NodeName : Int) } := by
  obtain ⟨bc', bgs', hrun, hbest⟩ :=
    chooseLoop_best comparator (tally gsList).allocatableGameServers le hord hrefl htrans
      (range (tally gsList).counts) [] none none
      (range_entries_allocatable range gsList hr) (Or.inl ⟨rfl, by simp⟩)
  rw [List.nil_append] at hbest
  refine ⟨bgs', find_unnamed_of_run range gsList comparator bc' bgs' hrun, ?_⟩
  have hvisit : ∀ m, 0 < readyOn gsList m →
      (m, ({ ready := (readyOn gsList m : Int), allocated := (allocatedOn gsList m : Int) }
        : nodeCount)) ∈ range (tally gsList).counts :=
    fun m hm => (range_mem_iff range gsList hr _).2 (tally_mem_of_ready gsList m hm)
  rcases hbest with ⟨hnone, hvis⟩ | ⟨n, c, g, hmem, hpos, _, hbgs, hl, hmax⟩
  · refine ⟨?_, ?_⟩
    · refine ⟨fun _ m => ?_, fun _ => hnone⟩
      by_contra hne
      have hm : 0 < readyOn gsList m := Nat.pos_of_ne_zero hne
      exact hvis _ (hvisit m hm) (Int.ofNat_lt.2 hm)
    · intro g hg
      rw [hnone] at hg
      exact Option.noConfusion hg
  · obtain ⟨_, hc⟩ := tally_counts_of_mem gsList n c ((range_mem_iff range gsList hr _).1 hmem)
    obtain ⟨_, hra⟩ := tally_allocatable_sound gsList n g hl
    have hnode : g.Status.NodeName = n := ((readyAt_iff n g).1 hra).2.2
    have hposn : 0 < readyOn gsList n := by
      have h2 : (0 : Int) < (readyOn gsList n : Int) := by
        rw [hc] at hpos
        exact hpos
      exact Int.ofNat_lt.1 h2
    refine ⟨?_, ?_⟩
    · rw [hbgs]
      refine ⟨fun h => Option.noConfusion h, fun h => ?_⟩
      rw [h n] at hposn
      exact absurd hposn (Nat.lt_irrefl 0)
    · intro g' hg'
      rw [hbgs] at hg'
      have hgg : g = g' := Option.some.inj hg'
      subst hgg
      rw [hnode]
      refine ⟨?_, ?_⟩
      · rw [← tally_allocatable]
        exact hl
      · intro m hm
        have := hmax _ (hvisit m hm) (Int.ofNat_lt.2 hm)
        rw [hc] at this
        exact this

theorem scenario_packed_choice :
    ∀ g ∈ scenario, (scenario.filter (readyAt g.Status.NodeName)).getLast? = some g →
      lexLe { ready := (readyOn scenario "NodeA" : Int),
              allocated := (allocatedOn scenario "NodeA" : Int) }
            { ready := (readyOn scenario g.Status.NodeName : Int),
              allocated := (allocatedOn scenario g.Status.NodeName : Int) } →
      g = mkGS "a3" "NodeA" .Ready := by
  decide

theorem scenario_distributed_choice :
    ∀ g ∈ scenario, (scenario.filter (readyAt g.Status.NodeName)).getLast? = some g →
      lexLe { ready := (readyOn scenario g.Status.NodeName : Int),
              allocated := (allocatedOn scenario g.Status.NodeName : Int) }
            { ready := (readyOn scenario "NodeB" : Int),
              allocated := (allocatedOn scenario "NodeB" : Int) } →
      g = mkGS "b6" "NodeB" .Ready := by
  decide

theorem scenario_ready_pos : 0 < readyOn scenario "NodeA" ∧ 0 < readyOn scenario "NodeB" := by
  decide

/-! ## Removing ineligible entities -/

theorem tally_filter_eligible (gsList : List GameServer) :
    tally (gsList.filter eligible) = tally gsList := by
  rw [tally_eq, tally_eq, List.filter_filter]
  simp

theorem find?_filter_eligible (gsList : List GameServer) (X : String) :
    (gsList.filter eligible).find? (fun gs => eligible gs && decide (gs.Name = X)) =
      gsList.find? (fun gs => eligible gs && decide (gs.Name = X)) := by
  induction gsList with
  | nil => rfl
  | cons gs rest ih =>
    by_cases he : eligible gs = true
    · by_cases hn : gs.Name = X
      · simp [List.filter, List.find?, he, hn]
      · simp [List.filter, List.find?, he, hn, ih]
    · have he3 : eligible gs = false := by simpa using he
      simp [List.filter, List.find?, he3, ih]

/-! ## The second loop never meets a missing best count -/

theorem chooseLoop_total (comparator : Comparator) (alloc : GoMap GameServer)
    (hret : ∀ b c, ∃ v, comparator (some b) (some c) = .ok v)
    (entries : List (String × nodeCount)) :
    ∀ (bc : Option nodeCount) (bgs : Option GameServer),
      (bgs.isSome = true → bc.isSome = true) →
      ∃ r, chooseLoop comparator alloc entries bc bgs = .ok r := by
  induction entries with
  | nil =>
    intro bc bgs _
    exact ⟨(bc, bgs), by simp [chooseLoop]⟩
  | cons e rest ih =>
    obtain ⟨n, c⟩ := e
    intro bc bgs hinv
    by_cases hpos : 0 < c.ready
    · cases bgs with
      | none =>
        rw [chooseLoop_first _ _ _ _ _ _ hpos]
        exact ih _ _ (fun _ => rfl)
      | some g0 =>
        rw [chooseLoop_compare _ _ _ _ _ _ _ hpos]
        obtain ⟨b, hb⟩ := Option.isSome_iff_exists.1 (hinv rfl)
        obtain ⟨v, hv⟩ := hret b c
        rw [hb, hv]
        cases v with
        | true => exact ih _ _ (fun _ => rfl)
        | false => exact ih _ _ (fun _ => rfl)
    · rw [chooseLoop_skip _ _ _ _ _ _ _ hpos]
      exact ih _ _ hinv

theorem chooseLoop_congr (comparator comparator' : Comparator) (alloc : GoMap GameServer)
    (hagree : ∀ b c, comparator (some b) (some c) = comparator' (some b) (some c))
    (entries : List (String × nodeCount)) :
    ∀ (bc : Option nodeCount) (bgs : Option GameServer),
      (bgs.isSome = true → bc.isSome = true) →
      chooseLoop comparator alloc entries bc bgs =
        chooseLoop comparator' alloc entries bc bgs := by
  induction entries with
  | nil =>
    intro bc bgs _
    simp [chooseLoop]
  | cons e rest ih =>
    obtain ⟨n, c⟩ := e
    intro bc bgs hinv
    by_cases hpos : 0 < c.ready
    · cases bgs with
      | none =>
        rw [chooseLoop_first _ _ _ _ _ _ hpos, chooseLoop_first _ _ _ _ _ _ hpos]
        exact ih _ _ (fun _ => rfl)
      | some g0 =>
        rw [chooseLoop_compare _ _ _ _ _ _ _ hpos, chooseLoop_compare _ _ _ _ _ _ _ hpos]
        obtain ⟨b, hb⟩ := Option.isSome_iff_exists.1 (hinv rfl)
        rw [hb, ← hagree b c]
        cases hc : comparator (some b) (some c) with
        | error e => rfl
        | ok v =>
          cases v with
          | true => exact ih _ _ (fun _ => rfl)
          | false => exact ih _ _ (fun _ => rfl)
    · rw [chooseLoop_skip _ _ _ _ _ _ _ hpos, chooseLoop_skip _ _ _ _ _ _ _ hpos]
      exact ih _ _ hinv

theorem packedComparator_returns (b c : nodeCount) :
    ∃ v, packedComparator (some b) (some c) = .ok v := by
  rcases packedComparator_orders b c with ⟨h, _⟩ | ⟨h, _⟩
  · exact ⟨true, h⟩
  · exact ⟨false, h⟩

theorem distributedComparator_returns (b c : nodeCount) :
    ∃ v, distributedComparator (some b) (some c) = .ok v := by
  rcases distributedComparator_orders b c with ⟨h, _⟩ | ⟨h, _⟩
  · exact ⟨true, h⟩
  · exact ⟨false, h⟩

theorem find_total (range : GoMap nodeCount → List (String × nodeCount))
    (gsList : List GameServer) (comparator : Comparator) (gameServerName : String)
    (hret : ∀ b c, ∃ v, comparator (some b) (some c) = .ok v) :
    ∃ r, findReadyGameServerForAllocation range gsList comparator gameServerName = .ok r := by
  by_cases hname : gameServerName = ""
  · subst hname
    obtain ⟨⟨bc, bgs⟩, hrun⟩ := chooseLoop_total comparator
      (tally gsList).allocatableGameServers hret (range (tally gsList).counts) none none
      (fun h => Bool.noConfusion h)
    exact ⟨bgs, find_unnamed_of_run range gsList comparator bc bgs hrun⟩
  · exact ⟨_, find_named range gsList comparator gameServerName hname⟩

theorem chooseLoop_keeps (comparator : Comparator) (alloc : GoMap GameServer)
    (entries : List (String × nodeCount)) :
    ∀ (bc : Option nodeCount) (bgs : Option GameServer)
      (bc' : Option nodeCount) (bgs' : Option GameServer),
      (bgs.isSome = true → bc.isSome = true) →
      chooseLoop comparator alloc entries bc bgs = .ok (bc', bgs') →
      (bgs'.isSome = true → bc'.isSome = true) := by
  induction entries with
  | nil =>
    intro bc bgs bc' bgs' hinv hrun
    simp only [chooseLoop, Except.ok.injEq, Prod.mk.injEq] at hrun
    rw [← hrun.1, ← hrun.2]
    exact hinv
  | cons e rest ih =>
    obtain ⟨n, c⟩ := e
    intro bc bgs bc' bgs' hinv hrun
    by_cases hpos : 0 < c.ready
    · cases bgs with
      | none =>
        rw [chooseLoop_first _ _ _ _ _ _ hpos] at hrun
        exact ih (some c) (mapLookup alloc n) bc' bgs' (fun _ => rfl) hrun
      | some g0 =>
        rw [chooseLoop_compare _ _ _ _ _ _ _ hpos] at hrun
        cases hc : comparator bc (some c) with
        | error e => rw [hc] at hrun; exact Except.noConfusion hrun
        | ok v =>
          rw [hc] at hrun
          cases v with
          | true => exact ih (some c) (mapLookup alloc n) bc' bgs' (fun _ => rfl) hrun
          | false => exact ih _ _ _ _ hinv hrun
    · rw [chooseLoop_skip _ _ _ _ _ _ _ hpos] at hrun
      exact ih _ _ _ _ hinv hrun

theorem packedComparator_eq (b c : nodeCount) :
    packedComparator (some b) (some c) =
      .ok (decide ((c.allocated = b.allocated ∧ c.ready > b.ready) ∨
        c.allocated > b.allocated)) := by
  simp only [packedComparator]
  split_ifs with h1 h2
  · simp [h1]
  · simp [h2]
  · simp [h1, h2]

theorem distributedComparator_eq (b c : nodeCount) :
    distributedComparator (some b) (some c) =
      .ok (!decide ((c.allocated = b.allocated ∧ c.ready > b.ready) ∨
        c.allocated > b.allocated)) := by
  simp only [distributedComparator, packedComparator_eq]

/-! ## Independence of the traversal order -/

theorem lexLe_antisymm (a b : nodeCount) (h1 : lexLe a b) (h2 : lexLe b a) :
    a.allocated = b.allocated ∧ a.ready = b.ready := by
  unfold lexLe at *
  omega

theorem find_deterministic (range1 range2 : GoMap nodeCount → List (String × nodeCount))
    (gsList : List GameServer) (comparator : Comparator)
    (le : nodeCount → nodeCount → Prop) (hord : Orders comparator le)
    (hrefl : ∀ a, le a a) (htrans : ∀ a b c, le a b → le b c → le a c)
    (hanti : ∀ a b, le a b → le b a → a.allocated = b.allocated ∧ a.ready = b.ready)
    (h1 : RangesOver range1 (tally gsList).counts)
    (h2 : RangesOver range2 (tally gsList).counts)
    (hties : ∀ n m, 0 < readyOn gsList n → 0 < readyOn gsList m →
      allocatedOn gsList n = allocatedOn gsList m → readyOn gsList n = readyOn gsList m →
      n = m) :
    findReadyGameServerForAllocation range1 gsList comparator "" =
      findReadyGameServerForAllocation range2 gsList comparator "" := by
  obtain ⟨r1, hf1, hn1, hm1⟩ := find_ordered range1 gsList comparator le hord hrefl htrans h1
  obtain ⟨r2, hf2, hn2, hm2⟩ := find_ordered range2 gsList comparator le hord hrefl htrans h2
  rw [hf1, hf2]
  have hposOf : ∀ g : GameServer,
      (gsList.filter (readyAt g.Status.NodeName)).getLast? = some g →
      0 < readyOn gsList g.Status.NodeName := by
    intro g hl
    have hmem := List.mem_filter.1 (List.mem_of_getLast?_eq_some hl)
    rw [readyOn, List.countP_pos_iff]
    exact ⟨g, hmem.1, hmem.2⟩
  cases r1 with
  | none =>
    cases r2 with
    | none => rfl
    | some g2 => exact Option.noConfusion (hn2.2 (hn1.1 rfl))
  | some g1 =>
    cases r2 with
    | none => exact Option.noConfusion (hn1.2 (hn2.1 rfl))
    | some g2 =>
      obtain ⟨hl1, hmax1⟩ := hm1 g1 rfl
      obtain ⟨hl2, hmax2⟩ := hm2 g2 rfl
      have hp1 := hposOf g1 hl1
      have hp2 := hposOf g2 hl2
      have heq := hanti _ _ (hmax1 _ hp2) (hmax2 _ hp1)
      simp only [Nat.cast_inj] at heq
      have hnode : g1.Status.NodeName = g2.Status.NodeName :=
        hties _ _ hp1 hp2 heq.1.symm heq.2.symm
      rw [hnode, hl2] at hl1
      rw [Option.some.inj hl1]

theorem scenario_no_ties :
    ∀ n m, 0 < readyOn scenario n → 0 < readyOn scenario m →
      allocatedOn scenario n = allocatedOn scenario m →
      readyOn scenario n = readyOn scenario m → n = m := by
  have hall : ∀ gs ∈ scenario,
      gs.Status.NodeName = "NodeA" ∨ gs.Status.NodeName = "NodeB" := by decide
  have hnodes : ∀ n, 0 < readyOn scenario n → n = "NodeA" ∨ n = "NodeB" := by
    intro n h
    rw [readyOn, List.countP_pos_iff] at h
    obtain ⟨gs, hmem, hra⟩ := h
    rw [← ((readyAt_iff n gs).1 hra).2.2]
    exact hall gs hmem
  have hdiff : allocatedOn scenario "NodeA" ≠ allocatedOn scenario "NodeB" := by decide
  intro n m hn hm ha _
  rcases hnodes n hn with h1 | h1 <;> rcases hnodes m hm with h2 | h2
  · rw [h1, h2]
  · rw [h1, h2] at ha
    exact absurd ha hdiff
  · rw [h1, h2] at ha
    exact absurd ha.symm hdiff
  · rw [h1, h2]

/-! ## The last entity satisfying a test -/

theorem getLast?_filter_split {α : Type} (p : α → Bool) (l : List α) (g : α)
    (h : (l.filter p).getLast? = some g) :
    ∃ pre post, l = pre ++ g :: post ∧ p g = true ∧ ∀ e ∈ post, p e = false := by
  induction l using List.reverseRecOn with
  | nil => simp at h
  | append_singleton init x ih =>
    rw [List.filter_append] at h
    by_cases hx : p x = true
    · have hfx : List.filter p [x] = [x] := by simp [List.filter, hx]
      rw [hfx, List.getLast?_concat] at h
      have hgx : x = g := Option.some.inj h
      subst hgx
      exact ⟨init, [], rfl, hx, by simp⟩
    · have hx2 : p x = false := by simpa using hx
      have hfx : List.filter p [x] = [] := by simp [List.filter, hx2]
      rw [hfx, List.append_nil] at h
      obtain ⟨pre, post, hsplit, hg, hpost⟩ := ih h
      refine ⟨pre, post ++ [x], by simp [hsplit], hg, ?_⟩
      intro e he
      rcases List.mem_append.1 he with h1 | h1
      · exact hpost e h1
      · have : e = x := by simpa using h1
        rw [this]
        exact hx2

/-! ## Main results -/

/-- C1, exact-match priority: for a non-empty target name `X`, when the snapshot holds an
eligible entity named `X`, the function returns the first such entity in iteration order
(every earlier entity is not both eligible and named `X`), for every comparator and every
traversal order; when names are unique it is the only entity named `X`. -/
theorem exact_match_priority (range : GoMap nodeCount → List (String × nodeCount))
    (gsList : List GameServer) (comparator : Comparator) (X : String) (hX : X ≠ "")
    (h : ∃ gs ∈ gsList, eligible gs = true ∧ gs.Name = X) :
    ∃ g pre post, gsList = pre ++ g :: post ∧
      (∀ e ∈ pre, ¬ (eligible e = true ∧ e.Name = X)) ∧
      eligible g = true ∧ g.Name = X ∧
      findReadyGameServerForAllocation range gsList comparator X = .ok (some g) ∧
      ((gsList.map GameServer.Name).Nodup → ∀ e ∈ gsList, e.Name = X → e = g) := by
  obtain ⟨gs, hmem, helig, hnm⟩ := h
  have hsome : (gsList.find? (fun gs => eligible gs && decide (gs.Name = X))).isSome = true := by
    rw [List.find?_isSome]
    exact ⟨gs, hmem, by simp [helig, hnm]⟩
  obtain ⟨g, hg⟩ := Option.isSome_iff_exists.1 hsome
  have hg2 := hg
  rw [List.find?_eq_some] at hg2
  obtain ⟨hp, pre, post, hsplit, hpre⟩ := hg2
  simp only [Bool.and_eq_true, decide_eq_true_eq] at hp
  refine ⟨g, pre, post, hsplit, ?_, hp.1, hp.2, ?_, ?_⟩
  · intro e he hc
    have := hpre e he
    simp [hc.1, hc.2] at this
  · rw [find_named range gsList comparator X hX, hg]
  · intro hnd e he hen
    have hgm : g ∈ gsList := by rw [hsplit]; simp
    exact List.inj_on_of_nodup_map hnd he hgm (hen.trans hp.2.symm)

/-- Instance of C1: in the scenario snapshot the Allocated entity `b1` is returned when it is
the target, under the packed policy. -/
theorem exact_match_priority_witness :
    ∃ g pre post, scenario = pre ++ g :: post ∧
      (∀ e ∈ pre, ¬ (eligible e = true ∧ e.Name = "b1")) ∧
      eligible g = true ∧ g.Name = "b1" ∧
      findReadyGameServerForAllocation id scenario packedComparator "b1" = .ok (some g) ∧
      ((scenario.map GameServer.Name).Nodup → ∀ e ∈ scenario, e.Name = "b1" → e = g) :=
  exact_match_priority id scenario packedComparator "b1" (by decide)
    ⟨mkGS "b1" "NodeB" .Allocated, by decide, by decide, by decide⟩

/-- C2, exact-match exclusivity: for a non-empty target name `X`, when no entity of the
snapshot is both eligible and named `X`, the function returns not-found, whatever other
entities the snapshot holds, for every comparator and every traversal order. -/
theorem exact_match_exclusivity (range : GoMap nodeCount → List (String × nodeCount))
    (gsList : List GameServer) (comparator : Comparator) (X : String) (hX : X ≠ "")
    (h : ∀ gs ∈ gsList, ¬ (eligible gs = true ∧ gs.Name = X)) :
    findReadyGameServerForAllocation range gsList comparator X = .ok none := by
  rw [find_named range gsList comparator X hX]
  have hnone : gsList.find? (fun gs => eligible gs && decide (gs.Name = X)) = none := by
    rw [List.find?_eq_none]
    intro gs hmem hc
    simp only [Bool.and_eq_true, decide_eq_true_eq] at hc
    exact h gs hmem hc
  rw [hnone]

/-- Instance of C2: the scenario snapshot extended with an entity named `gone` that is marked
for removal; the target `gone` is not found although eligible Ready entities exist. -/
theorem exact_match_exclusivity_witness :
    findReadyGameServerForAllocation id
      (scenario ++ [⟨"gone", some 7, ⟨.Ready, "NodeA"⟩⟩]) distributedComparator "gone"
      = .ok none :=
  exact_match_exclusivity id (scenario ++ [⟨"gone", some 7, ⟨.Ready, "NodeA"⟩⟩])
    distributedComparator "gone" (by decide) (by decide)

/-- C3, eligibility filtering: whatever the target (empty or not), the comparator and the
traversal order, an entity the function returns is a member of the snapshot, has a zero
deletion timestamp and is in state Ready or Allocated. -/
theorem eligibility_filtering (range : GoMap nodeCount → List (String × nodeCount))
    (gsList : List GameServer) (comparator : Comparator) (gameServerName : String)
    (g : GameServer)
    (h : findReadyGameServerForAllocation range gsList comparator gameServerName
      = .ok (some g)) :
    g ∈ gsList ∧ IsZero g.DeletionTimestamp = true ∧
      (g.Status.State = GameServerState.Ready ∨
        g.Status.State = GameServerState.Allocated) := by
  by_cases hname : gameServerName = ""
  · subst hname
    obtain ⟨bc, hrun⟩ := find_unnamed_run range gsList comparator _ h
    rcases chooseLoop_provenance _ _ _ _ _ _ _ hrun with hn | ⟨n, hl⟩
    · exact Option.noConfusion hn
    · obtain ⟨hmem, hra⟩ := tally_allocatable_sound gsList n g hl
      have h3 := (readyAt_iff n g).1 hra
      exact ⟨hmem, h3.1, Or.inl h3.2.1⟩
  · rw [find_named range gsList comparator gameServerName hname] at h
    have hf : gsList.find? (fun gs => eligible gs && decide (gs.Name = gameServerName))
        = some g := by
      simpa using h
    have hp := List.find?_some hf
    simp only [Bool.and_eq_true, decide_eq_true_eq] at hp
    have he := (eligible_iff g).1 hp.1
    exact ⟨List.mem_of_find?_eq_some hf, he.1, he.2.symm⟩

/-- Instance of C3: the entity returned for the scenario snapshot under the packed policy. -/
theorem eligibility_filtering_witness :
    mkGS "a3" "NodeA" .Ready ∈ scenario ∧
      IsZero (mkGS "a3" "NodeA" .Ready).DeletionTimestamp = true ∧
      ((mkGS "a3" "NodeA" .Ready).Status.State = GameServerState.Ready ∨
        (mkGS "a3" "NodeA" .Ready).Status.State = GameServerState.Allocated) :=
  eligibility_filtering id scenario packedComparator "" (mkGS "a3" "NodeA" .Ready)
    (by decide)

/-- C4, ready-gating: with no target name, for every comparator and traversal order, the
entity returned is in state Ready with a zero deletion timestamp, and its node has an
aggregate in the map built by the first loop whose Ready count is at least 1 and equals the
number of eligible Ready entities on the node; a node with no eligible Ready entity is never
the node of the result. -/
theorem ready_gating (range : GoMap nodeCount → List (String × nodeCount))
    (gsList : List GameServer) (comparator : Comparator) (g : GameServer)
    (h : findReadyGameServerForAllocation range gsList comparator "" = .ok (some g)) :
    g ∈ gsList ∧ g.Status.State = GameServerState.Ready ∧
      IsZero g.DeletionTimestamp = true ∧
      (∃ t c, scanLoop "" gsList ⟨[], []⟩ = Scan.finished t ∧
        mapLookup t.counts g.Status.NodeName = some c ∧ 1 ≤ c.ready ∧
        c.ready = (readyOn gsList g.Status.NodeName : Int)) ∧
      (∀ n, readyOn gsList n = 0 → g.Status.NodeName ≠ n) := by
  obtain ⟨bc, hrun⟩ := find_unnamed_run range gsList comparator _ h
  rcases chooseLoop_provenance _ _ _ _ _ _ _ hrun with hn | ⟨n, hl⟩
  · exact Option.noConfusion hn
  · obtain ⟨hmem, hra⟩ := tally_allocatable_sound gsList n g hl
    have h3 := (readyAt_iff n g).1 hra
    have hpos := readyOn_pos_of_mem gsList g hmem h3.1 h3.2.1
    refine ⟨hmem, h3.2.1, h3.1, ?_, ?_⟩
    · have hin := tally_mem_of_ready gsList _ hpos
      refine ⟨tally gsList, _, scanLoop_tally gsList,
        mapLookup_of_mem _ _ _ (tally_keys_nodup gsList) hin, ?_, rfl⟩
      show (1 : Int) ≤ (readyOn gsList g.Status.NodeName : Int)
      exact_mod_cast hpos
    · intro m hm hnode
      rw [hnode, hm] at hpos
      exact Nat.lt_irrefl 0 hpos

/-- Instance of C4: NodeC hosts three Allocated entities and no Ready one; the packed policy
returns the Ready entity of NodeA. -/
theorem ready_gating_witness :
    mkGS "a1" "NodeA" .Ready ∈ gatedScenario ∧
      (mkGS "a1" "NodeA" .Ready).Status.State = GameServerState.Ready ∧
      IsZero (mkGS "a1" "NodeA" .Ready).DeletionTimestamp = true ∧
      (∃ t c, scanLoop "" gatedScenario ⟨[], []⟩ = Scan.finished t ∧
        mapLookup t.counts (mkGS "a1" "NodeA" .Ready).Status.NodeName = some c ∧
        1 ≤ c.ready ∧
        c.ready = (readyOn gatedScenario (mkGS "a1" "NodeA" .Ready).Status.NodeName : Int)) ∧
      (∀ n, readyOn gatedScenario n = 0 → (mkGS "a1" "NodeA" .Ready).Status.NodeName ≠ n) :=
  ready_gating id gatedScenario packedComparator (mkGS "a1" "NodeA" .Ready) (by decide)

/-- C5, not-found exactly when: for every comparator and every traversal order of the node
map, the function returns not-found if and only if the target is non-empty and no eligible
entity has that name, or the target is empty and no entity is Ready with a zero deletion
timestamp.  The empty snapshot yields not-found; and when the comparator returns on every
pair of counts, a snapshot with a Ready entity of zero deletion timestamp and no target
yields an entity. -/
theorem not_found_iff (range : GoMap nodeCount → List (String × nodeCount))
    (gsList : List GameServer) (comparator : Comparator) (gameServerName : String)
    (hr : RangesOver range (tally gsList).counts) :
    (findReadyGameServerForAllocation range gsList comparator gameServerName = .ok none ↔
      (gameServerName ≠ "" ∧
        ∀ gs ∈ gsList, ¬ (eligible gs = true ∧ gs.Name = gameServerName)) ∨
      (gameServerName = "" ∧
        ∀ gs ∈ gsList, ¬ (IsZero gs.DeletionTimestamp = true ∧
          gs.Status.State = GameServerState.Ready))) ∧
    (gsList = [] →
      findReadyGameServerForAllocation range gsList comparator gameServerName = .ok none) ∧
    ((∀ b c, ∃ v, comparator (some b) (some c) = .ok v) → gameServerName = "" →
      (∃ gs ∈ gsList, IsZero gs.DeletionTimestamp = true ∧
        gs.Status.State = GameServerState.Ready) →
      ∃ g, findReadyGameServerForAllocation range gsList comparator gameServerName
        = .ok (some g)) := by
  have hiff : findReadyGameServerForAllocation range gsList comparator gameServerName
      = .ok none ↔
      (gameServerName ≠ "" ∧
        ∀ gs ∈ gsList, ¬ (eligible gs = true ∧ gs.Name = gameServerName)) ∨
      (gameServerName = "" ∧
        ∀ gs ∈ gsList, ¬ (IsZero gs.DeletionTimestamp = true ∧
          gs.Status.State = GameServerState.Ready)) := by
    by_cases hname : gameServerName = ""
    · subst hname
      constructor
      · intro h
        refine Or.inr ⟨rfl, ?_⟩
        intro gs hmem hc
        obtain ⟨bc, hrun⟩ := find_unnamed_run range gsList comparator _ h
        have hb := chooseLoop_sound comparator _ _ [] none none bc none
          (range_entries_allocatable range gsList hr) (Or.inl ⟨rfl, by simp⟩) hrun
        rw [List.nil_append] at hb
        have hpos := readyOn_pos_of_mem gsList gs hmem hc.1 hc.2
        have hin := (range_mem_iff range gsList hr _).2 (tally_mem_of_ready gsList _ hpos)
        rcases hb with ⟨_, hvis⟩ | ⟨_, _, _, _, _, _, hbgs, _, _⟩
        · exact hvis _ hin (Int.ofNat_lt.2 hpos)
        · exact Option.noConfusion hbgs
      · rintro (⟨hne, _⟩ | ⟨_, hno⟩)
        · exact absurd rfl hne
        · apply find_unnamed_of_run range gsList comparator none none
          apply chooseLoop_none
          intro e he hpos
          obtain ⟨n, c⟩ := e
          obtain ⟨_, hc⟩ :=
            tally_counts_of_mem gsList n c ((range_mem_iff range gsList hr _).1 he)
          have h2 : (0 : Int) < (readyOn gsList n : Int) := by
            rw [hc] at hpos
            exact hpos
          have h3 : 0 < readyOn gsList n := Int.ofNat_lt.1 h2
          rw [readyOn, List.countP_pos_iff] at h3
          obtain ⟨gs, hmem, hra⟩ := h3
          have h4 := (readyAt_iff n gs).1 hra
          exact hno gs hmem ⟨h4.1, h4.2.1⟩
    · rw [find_named range gsList comparator gameServerName hname]
      have hfind : (Except.ok (gsList.find?
          (fun gs => eligible gs && decide (gs.Name = gameServerName)))
            : Except Fault (Option GameServer)) = .ok none ↔
          ∀ gs ∈ gsList, ¬ (eligible gs = true ∧ gs.Name = gameServerName) := by
        rw [Except.ok.injEq, List.find?_eq_none]
        simp only [Bool.and_eq_true, decide_eq_true_eq]
      rw [hfind]
      constructor
      · exact fun h => Or.inl ⟨hname, h⟩
      · rintro (⟨_, hno⟩ | ⟨he, _⟩)
        · exact hno
        · exact absurd he hname
  refine ⟨hiff, ?_, ?_⟩
  · intro hnil
    apply hiff.2
    by_cases hname : gameServerName = ""
    · exact Or.inr ⟨hname, by simp [hnil]⟩
    · exact Or.inl ⟨hname, by simp [hnil]⟩
  · intro hret hname hex
    subst hname
    have hord : Orders comparator (fun _ _ => True) := by
      intro b c
      obtain ⟨v, hv⟩ := hret b c
      cases v with
      | true => exact Or.inl ⟨hv, trivial⟩
      | false => exact Or.inr ⟨hv, trivial⟩
    obtain ⟨r, hfind, hnone, _⟩ := find_ordered range gsList comparator (fun _ _ => True)
      hord (fun _ => trivial) (fun _ _ _ _ _ => trivial) hr
    obtain ⟨gs, hmem, hz, hs⟩ := hex
    have hpos := readyOn_pos_of_mem gsList gs hmem hz hs
    cases r with
    | none =>
      rw [hnone.1 rfl gs.Status.NodeName] at hpos
      exact absurd hpos (Nat.lt_irrefl 0)
    | some g => exact ⟨g, hfind⟩

/-- Instance of C5 at the empty snapshot, with no target, under the packed policy. -/
theorem not_found_iff_witness :
    (findReadyGameServerForAllocation id [] packedComparator "" = .ok none ↔
      (("" : String) ≠ "" ∧
        ∀ gs ∈ ([] : List GameServer), ¬ (eligible gs = true ∧ gs.Name = "")) ∨
      (("" : String) = "" ∧
        ∀ gs ∈ ([] : List GameServer), ¬ (IsZero gs.DeletionTimestamp = true ∧
          gs.Status.State = GameServerState.Ready))) ∧
    (([] : List GameServer) = [] →
      findReadyGameServerForAllocation id [] packedComparator "" = .ok none) ∧
    ((∀ b c, ∃ v, packedComparator (some b) (some c) = .ok v) → ("" : String) = "" →
      (∃ gs ∈ ([] : List GameServer), IsZero gs.DeletionTimestamp = true ∧
        gs.Status.State = GameServerState.Ready) →
      ∃ g, findReadyGameServerForAllocation id [] packedComparator "" = .ok (some g)) :=
  not_found_iff id [] packedComparator "" (List.Perm.refl _)

/-- C6, packed selection is the lexicographic maximum: with no target name and for every
traversal order of the node map, the function with `packedComparator` returns a result; it
is not-found exactly when no node has a Ready entity; otherwise the node of the returned
entity has an (allocated, ready) pair lexicographically greater than or equal to that of
every node with a positive Ready count.  For the scenario NodeA{allocated=2, ready=1},
NodeB{allocated=1, ready=5} the result is NodeA's Ready entity in every traversal order. -/
theorem packed_selects_lex_max (range : GoMap nodeCount → List (String × nodeCount))
    (gsList : List GameServer) (hr : RangesOver range (tally gsList).counts) :
    ∃ r, findReadyGameServerForAllocation range gsList packedComparator "" = .ok r ∧
      (r = none ↔ ∀ n, readyOn gsList n = 0) ∧
      (∀ g, r = some g → ∀ m, 0 < readyOn gsList m →
        allocatedOn gsList m < allocatedOn gsList g.Status.NodeName ∨
          (allocatedOn gsList m = allocatedOn gsList g.Status.NodeName ∧
            readyOn gsList m ≤ readyOn gsList g.Status.NodeName)) ∧
      (gsList = scenario → r = some (mkGS "a3" "NodeA" .Ready)) := by
  obtain ⟨r, hfind, hnone, hmax⟩ := find_ordered range gsList packedComparator lexLe
    packedComparator_orders lexLe_refl lexLe_trans hr
  refine ⟨r, hfind, hnone, ?_, ?_⟩
  · intro g hg m hm
    have h := (hmax g hg).2 m hm
    simp only [lexLe] at h
    omega
  · intro hs
    subst hs
    cases r with
    | none =>
      have h0 := hnone.1 rfl "NodeA"
      have h1 := scenario_ready_pos.1
      rw [h0] at h1
      exact absurd h1 (Nat.lt_irrefl 0)
    | some g =>
      obtain ⟨hlast, hle⟩ := hmax g rfl
      have hmem : g ∈ scenario :=
        (List.mem_filter.1 (List.mem_of_getLast?_eq_some hlast)).1
      rw [scenario_packed_choice g hmem hlast (hle "NodeA" scenario_ready_pos.1)]

/-- Instance of C6 at the scenario snapshot with the map traversed in insertion order. -/
theorem packed_selects_lex_max_witness :
    ∃ r, findReadyGameServerForAllocation id scenario packedComparator "" = .ok r ∧
      (r = none ↔ ∀ n, readyOn scenario n = 0) ∧
      (∀ g, r = some g → ∀ m, 0 < readyOn scenario m →
        allocatedOn scenario m < allocatedOn scenario g.Status.NodeName ∨
          (allocatedOn scenario m = allocatedOn scenario g.Status.NodeName ∧
            readyOn scenario m ≤ readyOn scenario g.Status.NodeName)) ∧
      (scenario = scenario → r = some (mkGS "a3" "NodeA" .Ready)) :=
  packed_selects_lex_max id scenario (List.Perm.refl _)

/-- C7, distributed selection spreads allocations: with no target name and for every
traversal order of the node map, the function with `distributedComparator` returns a result;
it is not-found exactly when no node has a Ready entity; otherwise the node of the returned
entity has an (allocated, ready) pair lexicographically less than or equal to that of every
node with a positive Ready count, so no such node has fewer Allocated entities.  For the
scenario NodeA{allocated=2, ready=1}, NodeB{allocated=1, ready=5} the result is NodeB's
representative in every traversal order. -/
theorem distributed_selects_lex_min (range : GoMap nodeCount → List (String × nodeCount))
    (gsList : List GameServer) (hr : RangesOver range (tally gsList).counts) :
    ∃ r, findReadyGameServerForAllocation range gsList distributedComparator "" = .ok r ∧
      (r = none ↔ ∀ n, readyOn gsList n = 0) ∧
      (∀ g, r = some g → ∀ m, 0 < readyOn gsList m →
        (allocatedOn gsList g.Status.NodeName < allocatedOn gsList m ∨
          (allocatedOn gsList g.Status.NodeName = allocatedOn gsList m ∧
            readyOn gsList g.Status.NodeName ≤ readyOn gsList m)) ∧
        allocatedOn gsList g.Status.NodeName ≤ allocatedOn gsList m) ∧
      (gsList = scenario → r = some (mkGS "b6" "NodeB" .Ready)) := by
  obtain ⟨r, hfind, hnone, hmin⟩ := find_ordered range gsList distributedComparator
    (fun a b => lexLe b a) distributedComparator_orders lexLe_refl
    (fun a b c h1 h2 => lexLe_trans c b a h2 h1) hr
  refine ⟨r, hfind, hnone, ?_, ?_⟩
  · intro g hg m hm
    have h := (hmin g hg).2 m hm
    simp only [lexLe] at h
    omega
  · intro hs
    subst hs
    cases r with
    | none =>
      have h0 := hnone.1 rfl "NodeB"
      have h1 := scenario_ready_pos.2
      rw [h0] at h1
      exact absurd h1 (Nat.lt_irrefl 0)
    | some g =>
      obtain ⟨hlast, hle⟩ := hmin g rfl
      have hmem : g ∈ scenario :=
        (List.mem_filter.1 (List.mem_of_getLast?_eq_some hlast)).1
      rw [scenario_distributed_choice g hmem hlast (hle "NodeB" scenario_ready_pos.2)]

/-- Instance of C7 at the scenario snapshot with the map traversed in reverse insertion
order. -/
theorem distributed_selects_lex_min_witness :
    ∃ r, findReadyGameServerForAllocation List.reverse scenario distributedComparator ""
        = .ok r ∧
      (r = none ↔ ∀ n, readyOn scenario n = 0) ∧
      (∀ g, r = some g → ∀ m, 0 < readyOn scenario m →
        (allocatedOn scenario g.Status.NodeName < allocatedOn scenario m ∨
          (allocatedOn scenario g.Status.NodeName = allocatedOn scenario m ∧
            readyOn scenario g.Status.NodeName ≤ readyOn scenario m)) ∧
        allocatedOn scenario g.Status.NodeName ≤ allocatedOn scenario m) ∧
      (scenario = scenario → r = some (mkGS "b6" "NodeB" .Ready)) :=
  distributed_selects_lex_min List.reverse scenario (List.reverse_perm _)

/-- C8, policy inversion: on every pair of node counts `packedComparator` returns a boolean
and `distributedComparator` returns its negation; on `nil` arguments both fault alike. -/
theorem policy_inversion :
    (∀ A B : nodeCount, ∃ p, packedComparator (some A) (some B) = .ok p ∧
      distributedComparator (some A) (some B) = .ok (!p)) ∧
    (∀ A B : Option nodeCount,
      distributedComparator A B = (packedComparator A B).map (fun p => !p)) := by
  constructor
  · intro A B
    simp only [distributedComparator, packedComparator]
    split_ifs <;> simp
  · intro A B
    simp only [distributedComparator]
    cases packedComparator A B <;> rfl

/-- C9, packed comparator definition: `packedComparator best current` always returns a
boolean, and it is true exactly when `current.allocated = best.allocated` and
`current.ready > best.ready`, or `current.allocated > best.allocated`; on
`{allocated = 2, ready = 1}` and `{allocated = 1, ready = 5}` it is false. -/
theorem packedComparator_spec :
    (∀ best current : nodeCount,
      (∃ p, packedComparator (some best) (some current) = .ok p) ∧
      (packedComparator (some best) (some current) = .ok true ↔
        (current.allocated = best.allocated ∧ current.ready > best.ready) ∨
          current.allocated > best.allocated)) ∧
    packedComparator (some ⟨1, 2⟩) (some ⟨5, 1⟩) = .ok false := by
  refine ⟨?_, by decide⟩
  intro best current
  simp only [packedComparator]
  split_ifs with h1 h2
  · simp [h1]
  · simp [h2]
  · simp [h1, h2]

/-- C10, aggregate counts are exact: with no target name the first loop runs to the end, and
in the map it builds every node has at most one aggregate; node `n` has an aggregate if and
only if it hosts an eligible entity; the aggregate's `ready` is the number of entities on
`n` with zero deletion timestamp and state Ready, its `allocated` the number with zero
deletion timestamp and state Allocated; and removing an ineligible entity from the snapshot
leaves the two maps unchanged. -/
theorem aggregate_counts_exact (gsList : List GameServer) :
    ∃ t, scanLoop "" gsList ⟨[], []⟩ = Scan.finished t ∧
      (mapKeys t.counts).Nodup ∧
      (∀ n, (∃ c, mapLookup t.counts n = some c) ↔
        ∃ gs ∈ gsList, eligible gs = true ∧ gs.Status.NodeName = n) ∧
      (∀ n c, mapLookup t.counts n = some c →
        c.ready = (readyOn gsList n : Int) ∧ c.allocated = (allocatedOn gsList n : Int)) ∧
      (∀ pre gs post, gsList = pre ++ gs :: post → eligible gs = false →
        scanLoop "" (pre ++ post) ⟨[], []⟩ = Scan.finished t) := by
  refine ⟨tally gsList, scanLoop_tally gsList, tally_keys_nodup gsList, ?_, ?_, ?_⟩
  · intro n
    rw [tally_counts, ← hostsEligible_iff]
    by_cases hh : hostsEligible gsList n = true
    · simp [hh]
    · simp [hh]
  · intro n c hl
    rw [tally_counts] at hl
    by_cases hh : hostsEligible gsList n = true
    · rw [if_pos hh] at hl
      rw [← Option.some.inj hl]
      exact ⟨rfl, rfl⟩
    · rw [if_neg hh] at hl
      exact Option.noConfusion hl
  · intro pre gs post hsplit he
    rw [scanLoop_tally, hsplit, tally_eq, tally_eq]
    simp [List.filter_append, List.filter_cons, he]

/-- C11, ineligible entities do not influence the outcome: for every snapshot, target,
comparator and traversal order of the node map, the function returns the same result on
the snapshot as on the snapshot from which every ineligible entity (removal flag set, or
state other than Ready and Allocated) has been removed. -/
theorem ineligible_no_influence (range : GoMap nodeCount → List (String × nodeCount))
    (gsList : List GameServer) (comparator : Comparator) (gameServerName : String) :
    findReadyGameServerForAllocation range gsList comparator gameServerName =
      findReadyGameServerForAllocation range (gsList.filter eligible) comparator
        gameServerName := by
  by_cases hname : gameServerName = ""
  · subst hname
    rw [find_unnamed, find_unnamed, tally_filter_eligible]
  · rw [find_named range gsList comparator gameServerName hname,
      find_named range (gsList.filter eligible) comparator gameServerName hname,
      find?_filter_eligible]

/-- C12, totality: for every snapshot, every target name and every listing of the node map,
the function with `packedComparator` and with `distributedComparator` returns an entity or
not-found and does not fault.  Both comparators fault on a missing best count, so they are
never applied to one; more generally the result depends only on what the comparator does on
two present counts.  The best count is set whenever the best entity is set, and every
aggregate with `ready > 0` has a recorded representative. -/
theorem totality (range : GoMap nodeCount → List (String × nodeCount))
    (gsList : List GameServer) (gameServerName : String) :
    (∃ r, findReadyGameServerForAllocation range gsList packedComparator gameServerName
      = .ok r) ∧
    (∃ r, findReadyGameServerForAllocation range gsList distributedComparator gameServerName
      = .ok r) ∧
    (∀ c, packedComparator none c = .error Fault.nilDereference ∧
      distributedComparator none c = .error Fault.nilDereference) ∧
    (∀ comparator comparator' : Comparator,
      (∀ b c, comparator (some b) (some c) = comparator' (some b) (some c)) →
      findReadyGameServerForAllocation range gsList comparator gameServerName =
        findReadyGameServerForAllocation range gsList comparator' gameServerName) ∧
    (∀ (comparator : Comparator) bc bgs,
      chooseLoop comparator (tally gsList).allocatableGameServers
        (range (tally gsList).counts) none none = .ok (bc, bgs) →
      bgs.isSome = true → bc.isSome = true) ∧
    (∀ n c, mapLookup (tally gsList).counts n = some c → 0 < c.ready →
      ∃ g, mapLookup (tally gsList).allocatableGameServers n = some g) := by
  refine ⟨find_total range gsList packedComparator gameServerName packedComparator_returns,
    find_total range gsList distributedComparator gameServerName
      distributedComparator_returns, ?_, ?_, ?_, ?_⟩
  · intro c
    constructor
    · simp [packedComparator]
    · simp [distributedComparator, packedComparator]
  · intro comparator comparator' hagree
    by_cases hname : gameServerName = ""
    · subst hname
      rw [find_unnamed, find_unnamed,
        chooseLoop_congr comparator comparator' _ hagree _ none none
          (fun h => Bool.noConfusion h)]
    · rw [find_named range gsList comparator gameServerName hname,
        find_named range gsList comparator' gameServerName hname]
  · intro comparator bc bgs hrun
    exact chooseLoop_keeps comparator _ _ none none bc bgs (fun h => Bool.noConfusion h) hrun
  · intro n c hl hpos
    exact tally_entries_allocatable gsList (n, c) (mem_of_mapLookup _ _ _ hl) hpos

/-- C13, tie non-determinism: there is a snapshot with two distinct nodes that both have a
Ready entity and the same (allocated, ready) counts, and two traversal orders of the node
map, one visiting the first node first and one visiting the second node first, that return
different entities with no target name: under `packedComparator` the entity of the node
visited first, under `distributedComparator` the entity of the node visited last. -/
theorem tie_nondeterminism :
    ∃ (gsList : List GameServer) (range1 range2 : GoMap nodeCount → List (String × nodeCount))
      (n1 n2 : String) (g1 g2 : GameServer),
      RangesOver range1 (tally gsList).counts ∧ RangesOver range2 (tally gsList).counts ∧
      n1 ≠ n2 ∧ 0 < readyOn gsList n1 ∧ 0 < readyOn gsList n2 ∧
      readyOn gsList n1 = readyOn gsList n2 ∧ allocatedOn gsList n1 = allocatedOn gsList n2 ∧
      (range1 (tally gsList).counts).map Prod.fst = [n1, n2] ∧
      (range2 (tally gsList).counts).map Prod.fst = [n2, n1] ∧
      g1 ≠ g2 ∧ g1.Status.NodeName = n1 ∧ g2.Status.NodeName = n2 ∧
      findReadyGameServerForAllocation range1 gsList packedComparator "" = .ok (some g1) ∧
      findReadyGameServerForAllocation range2 gsList packedComparator "" = .ok (some g2) ∧
      findReadyGameServerForAllocation range1 gsList distributedComparator ""
        = .ok (some g2) ∧
      findReadyGameServerForAllocation range2 gsList distributedComparator ""
        = .ok (some g1) := by
  refine ⟨tieScenario, id, List.reverse, "NodeX", "NodeY", mkGS "x1" "NodeX" .Ready,
    mkGS "y1" "NodeY" .Ready, List.Perm.refl _, List.reverse_perm _, ?_⟩
  decide

/-- C14, determinism without ties: with no target name, when no two distinct nodes with a
Ready entity have the same (allocated, ready) counts, the function with `packedComparator`
returns the same result under any two traversal orders of the node map, and likewise with
`distributedComparator`. -/
theorem determinism_without_ties
    (range1 range2 : GoMap nodeCount → List (String × nodeCount))
    (gsList : List GameServer)
    (h1 : RangesOver range1 (tally gsList).counts)
    (h2 : RangesOver range2 (tally gsList).counts)
    (hties : ∀ n m, 0 < readyOn gsList n → 0 < readyOn gsList m →
      allocatedOn gsList n = allocatedOn gsList m → readyOn gsList n = readyOn gsList m →
      n = m) :
    findReadyGameServerForAllocation range1 gsList packedComparator "" =
      findReadyGameServerForAllocation range2 gsList packedComparator "" ∧
    findReadyGameServerForAllocation range1 gsList distributedComparator "" =
      findReadyGameServerForAllocation range2 gsList distributedComparator "" := by
  constructor
  · exact find_deterministic range1 range2 gsList packedComparator lexLe
      packedComparator_orders lexLe_refl lexLe_trans lexLe_antisymm h1 h2 hties
  · refine find_deterministic range1 range2 gsList distributedComparator
      (fun a b => lexLe b a) distributedComparator_orders lexLe_refl
      (fun a b c hab hbc => lexLe_trans c b a hbc hab) ?_ h1 h2 hties
    intro a b hab hba
    exact lexLe_antisymm a b hba hab

/-- Instance of C14: the scenario snapshot has no tie, and the insertion order and its
reverse give the same result under both policies. -/
theorem determinism_without_ties_witness :
    findReadyGameServerForAllocation id scenario packedComparator "" =
      findReadyGameServerForAllocation List.reverse scenario packedComparator "" ∧
    findReadyGameServerForAllocation id scenario distributedComparator "" =
      findReadyGameServerForAllocation List.reverse scenario distributedComparator "" :=
  determinism_without_ties id List.reverse scenario (List.Perm.refl _)
    (List.reverse_perm _) scenario_no_ties

/-- C15, the representative is the last Ready entity: with no target name, for every
comparator and every listing of the node map, a returned entity is Ready with a zero
deletion timestamp and no later entity of the snapshot is on the same node, Ready and with a
zero deletion timestamp. -/
theorem representative_is_last_ready (range : GoMap nodeCount → List (String × nodeCount))
    (gsList : List GameServer) (comparator : Comparator) (g : GameServer)
    (h : findReadyGameServerForAllocation range gsList comparator "" = .ok (some g)) :
    ∃ pre post, gsList = pre ++ g :: post ∧
      IsZero g.DeletionTimestamp = true ∧ g.Status.State = GameServerState.Ready ∧
      ∀ e ∈ post, ¬ (e.Status.NodeName = g.Status.NodeName ∧
        IsZero e.DeletionTimestamp = true ∧ e.Status.State = GameServerState.Ready) := by
  obtain ⟨bc, hrun⟩ := find_unnamed_run range gsList comparator _ h
  rcases chooseLoop_provenance _ _ _ _ _ _ _ hrun with hn | ⟨n, hl⟩
  · exact Option.noConfusion hn
  · rw [tally_allocatable] at hl
    obtain ⟨pre, post, hsplit, hg, hpost⟩ := getLast?_filter_split _ _ _ hl
    have h3 := (readyAt_iff n g).1 hg
    refine ⟨pre, post, hsplit, h3.1, h3.2.1, ?_⟩
    intro e he hc
    have hra : readyAt n e = true :=
      (readyAt_iff n e).2 ⟨hc.2.1, hc.2.2, hc.1.trans h3.2.2⟩
    rw [hpost e he] at hra
    exact Bool.noConfusion hra

/-- Instance of C15: under the distributed policy the scenario snapshot yields `b6`, the last
of the five Ready entities of NodeB. -/
theorem representative_is_last_ready_witness :
    ∃ pre post, scenario = pre ++ mkGS "b6" "NodeB" .Ready :: post ∧
      IsZero (mkGS "b6" "NodeB" .Ready).DeletionTimestamp = true ∧
      (mkGS "b6" "NodeB" .Ready).Status.State = GameServerState.Ready ∧
      ∀ e ∈ post, ¬ (e.Status.NodeName = (mkGS "b6" "NodeB" .Ready).Status.NodeName ∧
        IsZero e.DeletionTimestamp = true ∧ e.Status.State = GameServerState.Ready) :=
  representative_is_last_ready id scenario distributedComparator (mkGS "b6" "NodeB" .Ready)
    (by decide)

/-- C16, `packedComparator` is a strict total order on (allocated, ready) pairs: it is
irreflexive, asymmetric and transitive, and on two counts that differ in `allocated` or in
`ready` exactly one direction is true; consequently `distributedComparator` is true on equal
arguments and in at least one direction on any two counts. -/
theorem packedComparator_strict_total_order (A B C : nodeCount) :
    packedComparator (some A) (some A) = .ok false ∧
    ¬ (packedComparator (some A) (some B) = .ok true ∧
      packedComparator (some B) (some A) = .ok true) ∧
    (packedComparator (some A) (some B) = .ok true →
      packedComparator (some B) (some C) = .ok true →
      packedComparator (some A) (some C) = .ok true) ∧
    (A.allocated ≠ B.allocated ∨ A.ready ≠ B.ready →
      (packedComparator (some A) (some B) = .ok true ∧
        packedComparator (some B) (some A) = .ok false) ∨
      (packedComparator (some A) (some B) = .ok false ∧
        packedComparator (some B) (some A) = .ok true)) ∧
    distributedComparator (some A) (some A) = .ok true ∧
    (distributedComparator (some A) (some B) = .ok true ∨
      distributedComparator (some B) (some A) = .ok true) := by
  simp only [packedComparator_eq, distributedComparator_eq, Except.ok.injEq,
    decide_eq_true_eq, decide_eq_false_iff_not, Bool.not_eq_true', gt_iff_lt]
  refine ⟨?_, ?_, ?_, ?_, ?_, ?_⟩ <;> omega

end FleetAllocation
